import Mathlib

/-!
Verification of the promotion scheduling / weighted-lottery / billing
reconciliation core of r2/r2/lib/promote.py.

Modelling conventions:
* Money amounts are exact rationals (the source passes Python floats through
  Decimal quantization); rounding to the smallest currency unit is
  floorCent (ROUND_DOWN) and ceilCent (ROUND_UP).
* Datetimes are modelled at day granularity as integers (the source's
  fixed-offset promotion day); the five-hour offset arithmetic collapses at
  this granularity.
* External collaborators (payment gateway, traffic store, promotion-weight
  store, live-ad cache, underdelivered-campaign store) are not part of
  promote.py; they are modelled from the spec as explicit state (World)
  plus behaviour oracles (Env).  Each such definition carries a
  "Modelled from the spec:" doc comment.
-/

/-- Round a currency amount down to the smallest currency unit, as
Decimal(str(x)).quantize(Decimal(".01"), rounding=ROUND_DOWN) does in
get_billable_amount. -/
def floorCent (x : ℚ) : ℚ := ((⌊(100 : ℚ) * x⌋ : ℤ) : ℚ) / 100

/-- Round a currency amount up to the smallest currency unit, as
Decimal(str(x)).quantize(Decimal(".01"), rounding=ROUND_UP) does in
get_refund_amount. -/
def ceilCent (x : ℚ) : ℚ := ((⌈(100 : ℚ) * x⌉ : ℤ) : ℚ) / 100

/-- An amount that is a whole number of cents (no sub-cent part). -/
def centAligned (x : ℚ) : Prop := ∃ k : ℤ, x = (k : ℚ) / 100

theorem floorCent_le (x : ℚ) : floorCent x ≤ x := by
  unfold floorCent
  rw [div_le_iff₀ (by norm_num : (0 : ℚ) < 100)]
  calc ((⌊(100 : ℚ) * x⌋ : ℤ) : ℚ) ≤ (100 : ℚ) * x := Int.floor_le _
    _ = x * 100 := mul_comm _ _

theorem le_ceilCent (x : ℚ) : x ≤ ceilCent x := by
  unfold ceilCent
  rw [le_div_iff₀ (by norm_num : (0 : ℚ) < 100)]
  calc x * 100 = (100 : ℚ) * x := mul_comm _ _
    _ ≤ ((⌈(100 : ℚ) * x⌉ : ℤ) : ℚ) := Int.le_ceil _

theorem floorCent_mono {x y : ℚ} (h : x ≤ y) : floorCent x ≤ floorCent y := by
  unfold floorCent
  have h100 : (100 : ℚ) * x ≤ (100 : ℚ) * y :=
    mul_le_mul_of_nonneg_left h (by norm_num)
  have := Int.floor_mono h100
  exact div_le_div_of_nonneg_right (by exact_mod_cast this) (by norm_num)

theorem floorCent_of_centAligned {x : ℚ} (h : centAligned x) : floorCent x = x := by
  obtain ⟨k, rfl⟩ := h
  unfold floorCent
  have h1 : (100 : ℚ) * ((k : ℚ) / 100) = (k : ℚ) := by field_simp
  rw [h1, Int.floor_intCast]

theorem ceilCent_le_of_centAligned {x y : ℚ} (hy : centAligned y) (h : x ≤ y) :
    ceilCent x ≤ y := by
  obtain ⟨k, rfl⟩ := hy
  unfold ceilCent
  have h100 : (100 : ℚ) * x ≤ (k : ℚ) := by
    have heq : (100 : ℚ) * ((k : ℚ) / 100) = (k : ℚ) := by field_simp
    calc (100 : ℚ) * x ≤ (100 : ℚ) * ((k : ℚ) / 100) :=
          mul_le_mul_of_nonneg_left h (by norm_num)
      _ = (k : ℚ) := heq
  have hceil : ⌈(100 : ℚ) * x⌉ ≤ k := by
    have := Int.ceil_mono h100
    simpa using this
  exact div_le_div_of_nonneg_right (by exact_mod_cast hceil) (by norm_num)

theorem centAligned_sub {x y : ℚ} (hx : centAligned x) (hy : centAligned y) :
    centAligned (x - y) := by
  obtain ⟨k, rfl⟩ := hx
  obtain ⟨m, rfl⟩ := hy
  exact ⟨k - m, by push_cast; ring⟩

/-- A PromoCampaign, as read and written by promote.py.
`cpm = none` models a campaign without the dynamic `cpm` attribute
("pre-CPM"); `priorityCpm` is `campaign.priority.cpm` (needs charging);
`refundAmount = none` models the absent `refund_amount` attribute
(campaign not finalized); `transId` is 0 for no transaction, positive for
a real gateway transaction, negative for a freebie. -/
structure Campaign where
  id : ℕ
  linkId : ℕ
  ownerId : ℕ
  fullname : String
  srName : String
  bid : ℚ
  cpm : Option ℚ
  priorityCpm : Bool
  transId : ℤ
  refundAmount : Option ℚ
  startDate : ℤ
  endDate : ℤ
deriving DecidableEq

/-- get_billable_amount (promote.py:999-1009): for a campaign with a cpm
attribute, min(bid, impressions / 1000 * cpm / 100); for a pre-CPM campaign
the full bid; the result quantized down to the cent. -/
def get_billable_amount (camp : Campaign) (impressions : ℕ) : ℚ :=
  match camp.cpm with
  | some cpm => floorCent (min camp.bid ((impressions : ℚ) / 1000 * cpm / 100))
  | none => floorCent camp.bid

/-- get_refund_amount (promote.py:874-880): charge = bid - existing_refund;
refund = charge - billable, rounded up to the cent, clamped at 0. -/
def get_refund_amount (camp : Campaign) (billable : ℚ) : ℚ :=
  let existing_refund := camp.refundAmount.getD 0
  let charge := camp.bid - existing_refund
  let refund_amount := charge - billable
  max (ceilCent refund_amount) 0

/-- C3: for a campaign with a cpm rate, get_billable_amount is
min(bid, impressions/1000 * cpmRate/100) rounded down to the cent, hence
monotonically non-decreasing in impressions (for a non-negative rate) and
capped at bid; for a flat (pre-CPM) campaign with a whole-cent bid it always
equals the full bid regardless of impressions. -/
theorem get_billable_amount_spec (camp campFlat : Campaign) (r : ℚ) (i j : ℕ)
    (hc : camp.cpm = some r) (hr : 0 ≤ r) (hij : i ≤ j)
    (hflat : campFlat.cpm = none) (hbid : centAligned campFlat.bid) :
    get_billable_amount camp i
        = floorCent (min camp.bid ((i : ℚ) / 1000 * r / 100)) ∧
    get_billable_amount camp i ≤ get_billable_amount camp j ∧
    get_billable_amount camp i ≤ camp.bid ∧
    get_billable_amount campFlat i = campFlat.bid := by
  have hform : ∀ k : ℕ, get_billable_amount camp k
      = floorCent (min camp.bid ((k : ℚ) / 1000 * r / 100)) := by
    intro k
    simp [get_billable_amount, hc]
  refine ⟨hform i, ?_, ?_, ?_⟩
  · rw [hform i, hform j]
    apply floorCent_mono
    apply min_le_min le_rfl
    have hcast : (i : ℚ) ≤ (j : ℚ) := by exact_mod_cast hij
    have h1 : (i : ℚ) / 1000 ≤ (j : ℚ) / 1000 :=
      div_le_div_of_nonneg_right hcast (by norm_num)
    have h2 : (i : ℚ) / 1000 * r ≤ (j : ℚ) / 1000 * r :=
      mul_le_mul_of_nonneg_right h1 hr
    exact div_le_div_of_nonneg_right h2 (by norm_num)
  · rw [hform i]
    exact le_trans (floorCent_le _) (min_le_left _ _)
  · simp only [get_billable_amount, hflat]
    exact floorCent_of_centAligned hbid

/-- Witness for get_billable_amount_spec: bid $100, cpm 500 cents/mille,
15000 vs 20000 impressions; a flat campaign with bid $50. -/
theorem get_billable_amount_spec_witness :
    get_billable_amount
        ⟨1, 1, 1, "c1", "", 100, some 500, true, 1, none, 0, 5⟩ 15000
      = floorCent (min 100 ((15000 : ℚ) / 1000 * 500 / 100)) ∧
    get_billable_amount ⟨1, 1, 1, "c1", "", 100, some 500, true, 1, none, 0, 5⟩ 15000
      ≤ get_billable_amount ⟨1, 1, 1, "c1", "", 100, some 500, true, 1, none, 0, 5⟩ 20000 ∧
    get_billable_amount ⟨1, 1, 1, "c1", "", 100, some 500, true, 1, none, 0, 5⟩ 15000 ≤ 100 ∧
    get_billable_amount ⟨2, 1, 1, "c2", "", 50, none, false, 1, none, 0, 5⟩ 15000 = 50 :=
  get_billable_amount_spec
    ⟨1, 1, 1, "c1", "", 100, some 500, true, 1, none, 0, 5⟩
    ⟨2, 1, 1, "c2", "", 50, none, false, 1, none, 0, 5⟩
    500 15000 20000 rfl (by norm_num) (by norm_num) rfl ⟨5000, by norm_num⟩

/-- C4: get_refund_amount equals max(0, round-up-to-cent(bid −
existingRefund − billable)) with existingRefund defaulting to 0; for a
non-negative billable amount and whole-cent bid and existing refund with
existingRefund ≤ bid, the result is never negative and never exceeds
bid − existingRefund. -/
theorem get_refund_amount_spec (camp : Campaign) (billable : ℚ)
    (hb : 0 ≤ billable) (hbid : centAligned camp.bid)
    (her : centAligned (camp.refundAmount.getD 0))
    (hle : camp.refundAmount.getD 0 ≤ camp.bid) :
    get_refund_amount camp billable
        = max 0 (ceilCent (camp.bid - camp.refundAmount.getD 0 - billable)) ∧
    0 ≤ get_refund_amount camp billable ∧
    get_refund_amount camp billable ≤ camp.bid - camp.refundAmount.getD 0 := by
  refine ⟨max_comm _ _, le_max_right _ _, ?_⟩
  have hsub : centAligned (camp.bid - camp.refundAmount.getD 0) :=
    centAligned_sub hbid her
  have hx : camp.bid - camp.refundAmount.getD 0 - billable
      ≤ camp.bid - camp.refundAmount.getD 0 := by linarith
  have h1 : ceilCent (camp.bid - camp.refundAmount.getD 0 - billable)
      ≤ camp.bid - camp.refundAmount.getD 0 :=
    ceilCent_le_of_centAligned hsub hx
  have h0 : (0 : ℚ) ≤ camp.bid - camp.refundAmount.getD 0 := by linarith
  exact max_le h1 h0

/-- Witness for get_refund_amount_spec: bid $100, no prior refund,
$75 billable; refund is $25, between 0 and bid. -/
theorem get_refund_amount_spec_witness :
    get_refund_amount ⟨1, 1, 1, "c1", "", 100, some 500, true, 1, none, 0, 5⟩ 75
        = max 0 (ceilCent (100 - 0 - 75)) ∧
    0 ≤ get_refund_amount ⟨1, 1, 1, "c1", "", 100, some 500, true, 1, none, 0, 5⟩ 75 ∧
    get_refund_amount ⟨1, 1, 1, "c1", "", 100, some 500, true, 1, none, 0, 5⟩ 75
        ≤ 100 - 0 := by
  have h := get_refund_amount_spec
    ⟨1, 1, 1, "c1", "", 100, some 500, true, 1, none, 0, 5⟩ 75
    (by norm_num) ⟨10000, by norm_num⟩ ⟨0, by norm_num⟩ (by norm_num)
  simpa using h

/- Modelled from the spec: the promoted-link status enumeration
(unpaid < unseen < accepted < promoted < finished, with terminal rejected);
`pending` is the status set by charge_pending and sits between accepted and
finished.  The enumeration itself lives outside promote.py. -/
namespace PROMOTE_STATUS

def unpaid : ℕ := 0

def unseen : ℕ := 1

def accepted : ℕ := 2

def promoted : ℕ := 3

def pending : ℕ := 4

def finished : ℕ := 5

def rejected : ℕ := 6

end PROMOTE_STATUS

/-- A promoted Link as promote.py reads it.  `promoted` models
"link.promoted is not None"; `over18` is the adult flag propagated by
make_daily_promotions. -/
structure Link where
  id : ℕ
  fullname : String
  authorId : ℕ
  deleted : Bool
  promoted : Bool
  promoteStatus : ℕ
  over18 : Bool
deriving DecidableEq

/-- is_promo (promote.py:141-143). -/
def is_promo (l : Link) : Bool := !l.deleted && l.promoted

/-- is_accepted (promote.py:145-148). -/
def is_accepted (l : Link) : Bool :=
  is_promo l && decide (l.promoteStatus ≠ PROMOTE_STATUS.rejected)
    && decide (PROMOTE_STATUS.accepted ≤ l.promoteStatus)

/-- is_promoted (promote.py:159-160). -/
def is_promoted (l : Link) : Bool :=
  is_promo l && decide (l.promoteStatus = PROMOTE_STATUS.promoted)

/-- Modelled from the spec: a PromotionWeights record — a (campaign,
audience, date, weight) scheduled-weight row; the store itself is outside
promote.py.  `thingName` is the owning link's fullname, `promoIdx` the
campaign id. -/
structure PromoWeight where
  thingName : String
  promoIdx : ℕ
  srName : String
  weight : ℚ
  date : ℤ
deriving DecidableEq

/-- An AdWeight (link fullname, weight, campaign fullname) live-set entry. -/
structure AdWeight where
  link : String
  weight : ℚ
  campaign : String
deriving DecidableEq

/-- Keys of the published live-ad structure: per-subreddit ids, the
transient empty key (global targeting), and the reserved FRONT_PAGE and
ALL_ADS keys of LiveAdWeights. -/
inductive AudKey
  | sr (id : ℕ)
  | empty
  | frontPage
  | allAds
deriving DecidableEq

/-- Observable payment-gateway interactions. -/
inductive Event
  | chargeAttempt (campId : ℕ)
  | chargeSuccess (campId : ℕ)
  | refundRequest (campId : ℕ) (amount : ℚ)
  | refundFailed (campId : ℕ)
deriving DecidableEq

/-- Static collaborator behaviour: the clock, the scheduled-weight store,
the gateway's charge/refund outcomes, the traffic store, per-campaign
corrupt-data faults seen while resolving a record during scheduling, and
the subreddit directory.  Modelled from the spec (these services are
outside promote.py). -/
structure Env where
  now : ℤ
  promoWeights : List PromoWeight
  chargeOutcome : ℕ → Bool
  refundOutcome : ℕ → Except Unit Bool
  trafficHistory : String → ℤ → ℤ → List ℕ
  missingTraffic : ℤ → ℤ → List ℤ
  fault : ℕ → Option String
  subredditByName : String → Option ℕ
  srOver18 : ℕ → Bool

/-- Mutable state touched by promote.py: the link and campaign stores, the
set of transactions the gateway reports charged, the underdelivered-campaign
set, the published live-ad structure and the promotions health flag. -/
@[ext]
structure World where
  links : List Link
  campaigns : List Campaign
  charged : List (ℤ × ℕ)
  underdelivered : List ℕ
  liveAds : AudKey → Option (List AdWeight)
  healthMarked : Bool

/-- Modelled from the spec: authorize.is_charged_transaction — the gateway
reports whether the (transaction, campaign) pair has been charged. -/
def is_charged_transaction (charged : List (ℤ × ℕ)) (transId : ℤ) (campId : ℕ) : Bool :=
  decide ((transId, campId) ∈ charged)

/-- charged_or_not_needed (promote.py:590-594): a campaign is charged or
does not need a charge (non-cpm priority). -/
def charged_or_not_needed (charged : List (ℤ × ℕ)) (camp : Campaign) : Bool :=
  is_charged_transaction charged camp.transId camp.id || !camp.priorityCpm

/-- Modelled from the spec: PromotionWeights.get_campaigns(date) — the
scheduled-weight rows for one promotion day. -/
def get_campaigns_on (env : Env) (date : ℤ) : List PromoWeight :=
  env.promoWeights.filter (fun p => decide (p.date = date))

/-- The accepted links reachable from the day's weight records
(promote.py:565-575): resolve each distinct link fullname and keep the
accepted ones. -/
def acceptedLinks (env : Env) (w : World) (offset : ℤ) : List Link :=
  ((((get_campaigns_on env (env.now + offset)).map (fun p => p.thingName)).dedup).filterMap
    (fun nm => w.links.find? (fun l => l.fullname = nm))).filter is_accepted

/-- The campaign dictionary built by accepted_campaigns
(promote.py:576-578): campaigns restricted to accepted links, looked up
by id. -/
def campaignById (env : Env) (w : World) (offset : ℤ) (i : ℕ) : Option Campaign :=
  w.campaigns.find? (fun c =>
    decide (c.id = i) && (acceptedLinks env w offset).any (fun l => decide (l.id = c.linkId)))

/-- accepted_campaigns (promote.py:565-587): for each weight record of the
day, yield (link, campaign, weight); skip records whose campaign is missing
(or not owned by an accepted link), or whose campaign has no transaction id
and cpm priority, or whose link cannot be resolved. -/
def accepted_campaigns (env : Env) (w : World) (offset : ℤ) :
    List (Link × Campaign × ℚ) :=
  (get_campaigns_on env (env.now + offset)).filterMap (fun pw =>
    match campaignById env w offset pw.promoIdx with
    | none => none
    | some camp =>
      if camp.transId = 0 ∧ camp.priorityCpm = true then none
      else
        match (acceptedLinks env w offset).find? (fun l => decide (l.id = camp.linkId)) with
        | none => none
        | some l => some (l, camp, pw.weight))

/-- get_scheduled (promote.py:597-618): build AdWeights for the campaigns
that are charged_or_not_needed; a per-campaign exception while resolving a
record (env.fault) lands in the error list instead. -/
def get_scheduled (env : Env) (w : World) (offset : ℤ) :
    List AdWeight × List (ℕ × String) :=
  ((accepted_campaigns env w offset).filterMap (fun t =>
      match env.fault t.2.1.id with
      | some _ => none
      | none =>
        if charged_or_not_needed w.charged t.2.1 then
          some (AdWeight.mk t.1.fullname t.2.2 t.2.1.fullname)
        else none),
   (accepted_campaigns env w offset).filterMap (fun t =>
      (env.fault t.2.1.id).map (fun e => (t.2.1.id, e))))

theorem campaignById_mem {env : Env} {w : World} {offset : ℤ} {i : ℕ} {c : Campaign}
    (h : campaignById env w offset i = some c) : c ∈ w.campaigns ∧ c.id = i := by
  unfold campaignById at h
  have hmem := List.mem_of_find?_eq_some h
  have hp := List.find?_some h
  simp only [Bool.and_eq_true, decide_eq_true_eq] at hp
  exact ⟨hmem, hp.1⟩

theorem accepted_campaigns_guard {env : Env} {w : World} {offset : ℤ}
    {l : Link} {camp : Campaign} {wt : ℚ}
    (h : (l, camp, wt) ∈ accepted_campaigns env w offset) :
    campaignById env w offset camp.id = some camp ∧
    ¬(camp.transId = 0 ∧ camp.priorityCpm = true) := by
  unfold accepted_campaigns at h
  rw [List.mem_filterMap] at h
  obtain ⟨pw, _hpw, hf⟩ := h
  cases hcb : campaignById env w offset pw.promoIdx with
  | none => rw [hcb] at hf; simp at hf
  | some c0 =>
    rw [hcb] at hf
    dsimp only at hf
    by_cases hskip : c0.transId = 0 ∧ c0.priorityCpm = true
    · rw [if_pos hskip] at hf; simp at hf
    · rw [if_neg hskip] at hf
      cases hfl : (acceptedLinks env w offset).find? (fun x => decide (x.id = c0.linkId)) with
      | none => rw [hfl] at hf; simp at hf
      | some l0 =>
        rw [hfl] at hf
        dsimp only at hf
        simp only [Option.some.injEq, Prod.mk.injEq] at hf
        obtain ⟨-, hc, -⟩ := hf
        subst hc
        have hid := (campaignById_mem hcb).2
        rw [← hid] at hcb
        exact ⟨hcb, hskip⟩

/-- C8: a scheduled weight record whose campaign has no transaction id
(trans_id = 0) and cpm priority is excluded from the ad weights returned by
get_scheduled and produces no entry in the error-campaigns list — it is
skipped silently inside accepted_campaigns. -/
theorem get_scheduled_skips_uncharged_cpm (env : Env) (w : World) (offset : ℤ)
    (pw : PromoWeight) (camp : Campaign)
    (hpw : pw ∈ get_campaigns_on env (env.now + offset))
    (hlook : campaignById env w offset pw.promoIdx = some camp)
    (ht : camp.transId = 0) (hcpm : camp.priorityCpm = true)
    (hnames : ∀ c1 ∈ w.campaigns, ∀ c2 ∈ w.campaigns,
      c1.fullname = c2.fullname → c1 = c2) :
    (∀ aw ∈ (get_scheduled env w offset).1, aw.campaign ≠ camp.fullname) ∧
    (∀ p ∈ (get_scheduled env w offset).2, p.1 ≠ camp.id) := by
  have hcampid := (campaignById_mem hlook).2
  have hcampmem := (campaignById_mem hlook).1
  have hlook' : campaignById env w offset camp.id = some camp := by
    rw [hcampid]; exact hlook
  constructor
  · intro aw haw heq
    unfold get_scheduled at haw
    rw [List.mem_filterMap] at haw
    obtain ⟨⟨l0, c0, wt0⟩, ht0, hf⟩ := haw
    have hguard := accepted_campaigns_guard ht0
    cases hfa : env.fault c0.id with
    | some e => rw [hfa] at hf; simp at hf
    | none =>
      rw [hfa] at hf
      by_cases hch : charged_or_not_needed w.charged c0 = true
      · rw [if_pos hch] at hf
        simp only [Option.some.injEq] at hf
        have hcname : c0.fullname = camp.fullname := by
          rw [← hf] at heq; exact heq
        have hc0mem := (campaignById_mem hguard.1).1
        have : c0 = camp := hnames c0 hc0mem camp hcampmem hcname
        subst this
        exact hguard.2 ⟨ht, hcpm⟩
      · rw [if_neg hch] at hf; simp at hf
  · intro p hp heq
    unfold get_scheduled at hp
    rw [List.mem_filterMap] at hp
    obtain ⟨⟨l0, c0, wt0⟩, ht0, hf⟩ := hp
    have hguard := accepted_campaigns_guard ht0
    cases hfa : env.fault c0.id with
    | none => rw [hfa] at hf; simp at hf
    | some e =>
      rw [hfa] at hf
      simp only [Option.map_some', Option.some.injEq] at hf
      have hcid : c0.id = camp.id := by rw [← hf] at heq; exact heq
      have hlook0 := hguard.1
      rw [hcid, hlook'] at hlook0
      have : c0 = camp := by
        injection hlook0 with h0
        exact h0.symm
      subst this
      exact hguard.2 ⟨ht, hcpm⟩

/-- Concrete environment for the get_scheduled witness: one weight record,
one accepted link, one cpm campaign with no transaction. -/
def env8 : Env :=
  { now := 0
    promoWeights := [⟨"l1", 1, "", 1, 0⟩]
    chargeOutcome := fun _ => false
    refundOutcome := fun _ => Except.ok true
    trafficHistory := fun _ _ _ => []
    missingTraffic := fun _ _ => []
    fault := fun _ => none
    subredditByName := fun _ => none
    srOver18 := fun _ => false }

def link8 : Link := ⟨1, "l1", 1, false, true, PROMOTE_STATUS.accepted, false⟩

def camp8 : Campaign := ⟨1, 1, 1, "camp1", "", 100, some 500, true, 0, none, 0, 0⟩

def world8 : World :=
  { links := [link8]
    campaigns := [camp8]
    charged := []
    underdelivered := []
    liveAds := fun _ => none
    healthMarked := false }

/-- Witness for get_scheduled_skips_uncharged_cpm at a concrete world. -/
theorem get_scheduled_skips_uncharged_cpm_witness :
    (∀ aw ∈ (get_scheduled env8 world8 0).1, aw.campaign ≠ camp8.fullname) ∧
    (∀ p ∈ (get_scheduled env8 world8 0).2, p.1 ≠ camp8.id) :=
  get_scheduled_skips_uncharged_cpm env8 world8 0 ⟨"l1", 1, "", 1, 0⟩ camp8
    (by decide) (by decide) (by decide) (by decide) (by decide)

/-- A PromoTuple (link fullname, normalized weight, campaign fullname). -/
structure PromoTuple where
  link : String
  weight : ℚ
  campaign : String
deriving DecidableEq

/-- Modelled from the spec: LiveAdWeights.get — read the published live-ad
entries for the requested keys (a missing key reads as an empty list). -/
def get_live_promotions (w : World) (srids : List AudKey) :
    List (AudKey × List AdWeight) :=
  srids.map (fun k => (k, (w.liveAds k).getD []))

/-- get_promotion_list (promote.py:912-927): flatten the requested keys'
live entries and normalize each weight by the total. -/
def get_promotion_list (w : World) (srids : List AudKey) : List PromoTuple :=
  let weights := get_live_promotions w srids
  if weights = [] then []
  else
    let promos := ((weights.filter (fun kv => decide (kv.1 ∈ srids))).map
      (fun kv => kv.2)).flatten
    let total := (promos.map (fun aw => aw.weight)).sum
    promos.map (fun aw => PromoTuple.mk aw.link (aw.weight / total) aw.campaign)

/-- Modelled from the spec: weighted_lottery draws one candidate at a time
from the remaining weight mapping; the random draw is abstracted by a pick
oracle choosing an index (reduced modulo the number of remaining
candidates), so the proved properties hold for every draw sequence.  This
is the while-loop of lottery_promoted_links: stop at n selections or when
the mapping is exhausted, deleting each drawn candidate. -/
def lottery_select (pick : List PromoTuple → ℕ) :
    ℕ → List PromoTuple → List PromoTuple
  | 0, _ => []
  | _ + 1, [] => []
  | n + 1, x :: xs =>
    let s := (x :: xs).get ⟨pick (x :: xs) % (x :: xs).length,
      Nat.mod_lt _ (Nat.succ_pos xs.length)⟩
    s :: lottery_select pick n ((x :: xs).erase s)

/-- lottery_promoted_links (promote.py:930-939): the candidate dictionary
keeps the distinct promo tuples with nonzero weight; then draw without
replacement up to n times. -/
def lottery_promoted_links (pick : List PromoTuple → ℕ) (w : World)
    (srids : List AudKey) (n : ℕ) : List PromoTuple :=
  lottery_select pick n
    (((get_promotion_list w srids).filter (fun p => decide (p.weight ≠ 0))).dedup)

theorem lottery_select_subset (pick : List PromoTuple → ℕ) :
    ∀ (n : ℕ) (l : List PromoTuple), ∀ p ∈ lottery_select pick n l, p ∈ l := by
  intro n
  induction n with
  | zero => intro l p hp; simp [lottery_select] at hp
  | succ n ih =>
    intro l p hp
    cases l with
    | nil => simp [lottery_select] at hp
    | cons x xs =>
      rw [lottery_select] at hp
      rcases List.mem_cons.mp hp with h | h
      · rw [h]; exact List.get_mem _ _ _
      · exact List.erase_subset _ _ (ih _ p h)

theorem lottery_select_nodup (pick : List PromoTuple → ℕ) :
    ∀ (n : ℕ) (l : List PromoTuple), l.Nodup → (lottery_select pick n l).Nodup := by
  intro n
  induction n with
  | zero => intro l _; simp [lottery_select]
  | succ n ih =>
    intro l hl
    cases l with
    | nil => simp [lottery_select]
    | cons x xs =>
      rw [lottery_select]
      refine List.nodup_cons.mpr ⟨?_, ih _ (hl.erase _)⟩
      intro hmem
      have hsub := lottery_select_subset pick n _ _ hmem
      have hiff := (List.Nodup.mem_erase_iff hl).mp hsub
      exact hiff.1 rfl

theorem lottery_select_length (pick : List PromoTuple → ℕ) :
    ∀ (n : ℕ) (l : List PromoTuple), l.Nodup →
      (lottery_select pick n l).length = min n l.length := by
  intro n
  induction n with
  | zero => intro l _; simp [lottery_select]
  | succ n ih =>
    intro l hl
    cases l with
    | nil => simp [lottery_select]
    | cons x xs =>
      have hmem : ((x :: xs).get ⟨pick (x :: xs) % (x :: xs).length,
          Nat.mod_lt _ (Nat.succ_pos xs.length)⟩) ∈ x :: xs := List.get_mem _ _ _
      have hlen : ((x :: xs).erase ((x :: xs).get ⟨pick (x :: xs) % (x :: xs).length,
          Nat.mod_lt _ (Nat.succ_pos xs.length)⟩)).length = xs.length := by
        rw [List.length_erase_of_mem hmem]
        simp
      rw [lottery_select]
      simp only [List.length_cons] at hlen ⊢
      rw [ih _ (hl.erase _), hlen]
      omega

/-- C10: lottery_promoted_links returns an ordered sequence of distinct
entries drawn without replacement: when all live weights are non-negative,
no zero-weight entry is ever returned, every selection is one of the live
promotion entries, and the length is exactly min(n, number of distinct
positive-weight entries) — in particular an empty candidate set yields an
empty sequence, and when fewer than n positive-weight candidates exist all
of them are returned. -/
theorem lottery_promoted_links_spec (pick : List PromoTuple → ℕ) (w : World)
    (srids : List AudKey) (n : ℕ)
    (hpos : ∀ p ∈ get_promotion_list w srids, 0 ≤ p.weight) :
    (lottery_promoted_links pick w srids n).Nodup ∧
    (∀ p ∈ lottery_promoted_links pick w srids n,
        p ∈ get_promotion_list w srids ∧ 0 < p.weight) ∧
    (lottery_promoted_links pick w srids n).length
      = min n (((get_promotion_list w srids).filter
          (fun p => decide (0 < p.weight))).dedup).length := by
  have hnd : (((get_promotion_list w srids).filter
      (fun p => decide (p.weight ≠ 0))).dedup).Nodup := List.nodup_dedup _
  refine ⟨lottery_select_nodup pick n _ hnd, ?_, ?_⟩
  · intro p hp
    have hmem := lottery_select_subset pick n _ p hp
    rw [List.mem_dedup, List.mem_filter] at hmem
    obtain ⟨hmem, hw⟩ := hmem
    have hw' : p.weight ≠ 0 := by simpa using hw
    exact ⟨hmem, lt_of_le_of_ne (hpos p hmem) (Ne.symm hw')⟩
  · have hfeq : (get_promotion_list w srids).filter (fun p => decide (p.weight ≠ 0))
        = (get_promotion_list w srids).filter (fun p => decide (0 < p.weight)) := by
      apply List.filter_congr
      intro p hp
      have h0 := hpos p hp
      by_cases hz : p.weight = 0
      · simp [hz]
      · simp [hz, lt_of_le_of_ne h0 (Ne.symm hz)]
    rw [lottery_promoted_links, lottery_select_length pick n _ hnd, hfeq]

/-- Concrete world for the lottery witness: one audience with one
positive-weight and one zero-weight entry. -/
def world10 : World :=
  { links := []
    campaigns := []
    charged := []
    underdelivered := []
    liveAds := fun k => if k = AudKey.sr 1 then
        some [⟨"l1", 2, "c1"⟩, ⟨"l2", 0, "c2"⟩] else none
    healthMarked := false }

/-- Witness for lottery_promoted_links_spec at a concrete live set. -/
theorem lottery_promoted_links_spec_witness :
    (lottery_promoted_links (fun _ => 0) world10 [AudKey.sr 1] 5).Nodup ∧
    (∀ p ∈ lottery_promoted_links (fun _ => 0) world10 [AudKey.sr 1] 5,
        p ∈ get_promotion_list world10 [AudKey.sr 1] ∧ 0 < p.weight) ∧
    (lottery_promoted_links (fun _ => 0) world10 [AudKey.sr 1] 5).length
      = min 5 (((get_promotion_list world10 [AudKey.sr 1]).filter
          (fun p => decide (0 < p.weight))).dedup).length :=
  lottery_promoted_links_spec (fun _ => 0) world10 [AudKey.sr 1] 5 (by
    intro p hp
    simp [get_promotion_list, get_live_promotions, world10] at hp
    rcases hp with h | h
    · rw [h]; norm_num
    · rw [h])

/-- Modelled from the spec: PromotionWeights.get_campaigns(lo, hi) — the
scheduled-weight rows in a date window. -/
def get_campaigns_range (env : Env) (lo hi : ℤ) : List PromoWeight :=
  env.promoWeights.filter (fun p => decide (lo ≤ p.date ∧ p.date ≤ hi))

/-- set_live_promotions (promote.py:718-738): audiences with any scheduled
weight from yesterday through tomorrow default to an empty list, the new
weights are mixed in on top, the transient empty key is renamed to the
FRONT_PAGE key, and the result replaces the published live-ad structure
(LiveAdWeights.set_all_from_weights is modelled from the spec as a
full-state replace that also maintains the ALL_ADS aggregate key). -/
def set_live_promotions (env : Env) (w : World)
    (weights : List (AudKey × List AdWeight)) : World :=
  let pws := get_campaigns_range env (env.now - 1) (env.now + 1)
  let srIds := ((pws.map (fun p => p.srName)).dedup).filterMap env.subredditByName
  let updated : AudKey → Option (List AdWeight) := fun k =>
    match (weights.find? (fun q => q.1 = k)).map (fun q => q.2) with
    | some v => some v
    | none =>
      match k with
      | AudKey.sr i => if srIds.contains i then some [] else none
      | _ => none
  let final : AudKey → Option (List AdWeight) := fun k =>
    match k with
    | AudKey.empty => none
    | AudKey.frontPage =>
      match updated AudKey.empty with
      | some v => some v
      | none => updated AudKey.frontPage
    | AudKey.allAds => some ((weights.map (fun q => q.2)).flatten)
    | AudKey.sr i => updated (AudKey.sr i)
  { w with liveAds := final }

/-- C9: after set_live_promotions, an audience that had a scheduled weight
in the yesterday-to-tomorrow window but is absent from the new weights
mapping is published with an explicit empty list, while an audience present
in the mapping is published with exactly its new entries. -/
theorem set_live_promotions_spec (env : Env) (w : World)
    (weights : List (AudKey × List AdWeight)) (i j : ℕ) (pw : PromoWeight)
    (qe : AudKey × List AdWeight)
    (habs : ∀ q ∈ weights, q.1 ≠ AudKey.sr i)
    (hwin : pw ∈ env.promoWeights) (hlo : env.now - 1 ≤ pw.date)
    (hhi : pw.date ≤ env.now + 1) (hsr : env.subredditByName pw.srName = some i)
    (hfind : weights.find? (fun q => q.1 = AudKey.sr j) = some qe) :
    (set_live_promotions env w weights).liveAds (AudKey.sr i) = some [] ∧
    (set_live_promotions env w weights).liveAds (AudKey.sr j) = some qe.2 := by
  constructor
  · have hnone : weights.find? (fun q => q.1 = AudKey.sr i) = none := by
      rw [List.find?_eq_none]
      intro q hq
      simpa using habs q hq
    have hin : ((((get_campaigns_range env (env.now - 1) (env.now + 1)).map
        (fun p => p.srName)).dedup).filterMap env.subredditByName).contains i = true := by
      rw [List.contains_iff_exists_mem_beq]
      refine ⟨i, ?_, by simp⟩
      rw [List.mem_filterMap]
      refine ⟨pw.srName, ?_, hsr⟩
      rw [List.mem_dedup, List.mem_map]
      refine ⟨pw, ?_, rfl⟩
      rw [get_campaigns_range, List.mem_filter]
      exact ⟨hwin, by simp [hlo, hhi]⟩
    simp only [set_live_promotions]
    rw [hnone]
    simp only [Option.map_none']
    rw [hin]
    simp
  · have hq1 : qe.1 = AudKey.sr j := by
      have := List.find?_some hfind
      simpa using this
    simp only [set_live_promotions]
    rw [hfind]
    simp

/-- Concrete environment for the set_live_promotions witness: audience 2
had a scheduled weight in the window but is absent from the new mapping;
audience 3 is present in the new mapping. -/
def env9 : Env :=
  { now := 0
    promoWeights := [⟨"lx", 7, "aud", 1, 0⟩]
    chargeOutcome := fun _ => false
    refundOutcome := fun _ => Except.ok true
    trafficHistory := fun _ _ _ => []
    missingTraffic := fun _ _ => []
    fault := fun _ => none
    subredditByName := fun nm => if nm = "aud" then some 2 else none
    srOver18 := fun _ => false }

def world9 : World :=
  { links := []
    campaigns := []
    charged := []
    underdelivered := []
    liveAds := fun _ => none
    healthMarked := false }

/-- Witness for set_live_promotions_spec at a concrete publish. -/
theorem set_live_promotions_spec_witness :
    (set_live_promotions env9 world9
        [(AudKey.sr 3, [AdWeight.mk "l3" 1 "c3"])]).liveAds (AudKey.sr 2)
      = some [] ∧
    (set_live_promotions env9 world9
        [(AudKey.sr 3, [AdWeight.mk "l3" 1 "c3"])]).liveAds (AudKey.sr 3)
      = some [AdWeight.mk "l3" 1 "c3"] :=
  set_live_promotions_spec env9 world9
    [(AudKey.sr 3, [AdWeight.mk "l3" 1 "c3"])] 2 3 ⟨"lx", 7, "aud", 1, 0⟩
    (AudKey.sr 3, [AdWeight.mk "l3" 1 "c3"])
    (by decide) (by decide) (by decide) (by decide) (by decide) (by decide)

/-- Modelled from the spec: authorize.charge_transaction — request a charge
from the Payment Gateway; on success the gateway subsequently reports the
(transaction, campaign) pair as charged. -/
def charge_transaction (env : Env) (w : World) (transId : ℤ) (campId : ℕ) :
    World × Bool :=
  if env.chargeOutcome campId then
    ({ w with charged := (transId, campId) :: w.charged }, true)
  else (w, false)

/-- Modelled from the spec: queries.set_promote_status — set the link's
promotion status in the link store. -/
def set_promote_status (w : World) (l : Link) (status : ℕ) : World :=
  { w with links := w.links.map (fun x =>
      if x.id = l.id then { x with promoteStatus := status } else x) }

/-- The status advance after a successful charge (promote.py:642-646):
unless the link is already promoted, set it to pending (emails are not
modelled). -/
def advance_link (w : World) (l : Link) : World :=
  let cur := (w.links.find? (fun x => decide (x.id = l.id))).getD l
  if is_promoted cur then w else set_promote_status w l PROMOTE_STATUS.pending

theorem advance_link_campaigns (w : World) (l : Link) :
    (advance_link w l).campaigns = w.campaigns := by
  simp only [advance_link]
  split
  · rfl
  · rfl

theorem advance_link_charged (w : World) (l : Link) :
    (advance_link w l).charged = w.charged := by
  simp only [advance_link]
  split
  · rfl
  · rfl

/-- The charging loop of charge_pending (promote.py:627-651): skip each
scheduled (link, campaign, weight) triple that is charged_or_not_needed,
otherwise request a charge; on success fire the hook and advance the link
(hook and emails are not modelled).  The returned events record the gateway
interactions of this call. -/
def charge_loop (env : Env) :
    List (Link × Campaign × ℚ) → World → World × List Event
  | [], w => (w, [])
  | (l, camp, _) :: rest, w =>
    if charged_or_not_needed w.charged camp then charge_loop env rest w
    else
      let r := charge_transaction env w camp.transId camp.id
      if r.2 then
        let res := charge_loop env rest (advance_link r.1 l)
        (res.1, Event.chargeAttempt camp.id :: Event.chargeSuccess camp.id :: res.2)
      else
        let res := charge_loop env rest r.1
        (res.1, Event.chargeAttempt camp.id :: res.2)

/-- charge_pending (promote.py:627-651): run the charging loop over the
triples accepted for the day. -/
def charge_pending (env : Env) (w : World) (offset : ℤ) : World × List Event :=
  charge_loop env (accepted_campaigns env w offset) w

theorem accepted_campaigns_camp_mem {env : Env} {w : World} {offset : ℤ}
    {l : Link} {camp : Campaign} {wt : ℚ}
    (h : (l, camp, wt) ∈ accepted_campaigns env w offset) : camp ∈ w.campaigns :=
  (campaignById_mem (accepted_campaigns_guard h).1).1

theorem charge_loop_campaigns (env : Env) (L : List (Link × Campaign × ℚ)) :
    ∀ w : World, ((charge_loop env L w).1).campaigns = w.campaigns := by
  induction L with
  | nil => intro w; rfl
  | cons t rest ih =>
    obtain ⟨l, camp, wt⟩ := t
    intro w
    rw [charge_loop]
    by_cases hch : charged_or_not_needed w.charged camp = true
    · rw [if_pos hch]; exact ih w
    · rw [if_neg hch]
      by_cases ho : env.chargeOutcome camp.id = true
      · simp only [charge_transaction, ho, ite_true]
        rw [ih, advance_link_campaigns]
      · have hof : env.chargeOutcome camp.id = false := by
          rwa [Bool.not_eq_true] at ho
        simp only [charge_transaction, hof, Bool.false_eq_true, ite_false]
        exact ih w

theorem charge_loop_charged_mono (env : Env) (L : List (Link × Campaign × ℚ)) :
    ∀ (w : World) (t : ℤ × ℕ), t ∈ w.charged →
      t ∈ ((charge_loop env L w).1).charged := by
  induction L with
  | nil => intro w t ht; exact ht
  | cons tr rest ih =>
    obtain ⟨l, camp, wt⟩ := tr
    intro w t ht
    rw [charge_loop]
    by_cases hch : charged_or_not_needed w.charged camp = true
    · rw [if_pos hch]; exact ih w t ht
    · rw [if_neg hch]
      by_cases ho : env.chargeOutcome camp.id = true
      · simp only [charge_transaction, ho, ite_true]
        apply ih
        rw [advance_link_charged]
        exact List.mem_cons_of_mem _ ht
      · have hof : env.chargeOutcome camp.id = false := by
          rwa [Bool.not_eq_true] at ho
        simp only [charge_transaction, hof, Bool.false_eq_true, ite_false]
        exact ih w t ht

theorem charge_loop_success_charged (env : Env)
    (L : List (Link × Campaign × ℚ)) :
    ∀ (w : World) (cid : ℕ), Event.chargeSuccess cid ∈ (charge_loop env L w).2 →
      ∃ camp ∈ L.map (fun t => t.2.1), camp.id = cid ∧
        (camp.transId, camp.id) ∈ ((charge_loop env L w).1).charged := by
  induction L with
  | nil => intro w cid h; simp [charge_loop] at h
  | cons tr rest ih =>
    obtain ⟨l, camp, wt⟩ := tr
    intro w cid h
    rw [charge_loop] at h ⊢
    by_cases hch : charged_or_not_needed w.charged camp = true
    · rw [if_pos hch] at h ⊢
      obtain ⟨c, hc, hcid, hcharged⟩ := ih w cid h
      exact ⟨c, List.mem_cons_of_mem _ hc, hcid, hcharged⟩
    · rw [if_neg hch] at h ⊢
      by_cases ho : env.chargeOutcome camp.id = true
      · simp only [charge_transaction, ho, ite_true] at h ⊢
        rcases List.mem_cons.mp h with habs | h2
        · exact absurd habs (by simp)
        · rcases List.mem_cons.mp h2 with heq | h3
          · have hcid : camp.id = cid := by
              injection heq with h0
              exact h0.symm
            refine ⟨camp, List.mem_cons_self _ _, hcid, ?_⟩
            apply charge_loop_charged_mono
            rw [advance_link_charged]
            exact List.mem_cons_self _ _
          · obtain ⟨c, hc, hcid, hcharged⟩ := ih _ cid h3
            exact ⟨c, List.mem_cons_of_mem _ hc, hcid, hcharged⟩
      · have hof : env.chargeOutcome camp.id = false := by
          rwa [Bool.not_eq_true] at ho
        simp only [charge_transaction, hof, Bool.false_eq_true, ite_false] at h ⊢
        rcases List.mem_cons.mp h with habs | h2
        · exact absurd habs (by simp)
        · obtain ⟨c, hc, hcid, hcharged⟩ := ih w cid h2
          exact ⟨c, List.mem_cons_of_mem _ hc, hcid, hcharged⟩

theorem charge_loop_attempt_uncharged (env : Env)
    (L : List (Link × Campaign × ℚ)) :
    ∀ (w : World) (cid : ℕ), Event.chargeAttempt cid ∈ (charge_loop env L w).2 →
      ∃ camp ∈ L.map (fun t => t.2.1), camp.id = cid ∧ camp.priorityCpm = true ∧
        (camp.transId, camp.id) ∉ w.charged := by
  induction L with
  | nil => intro w cid h; simp [charge_loop] at h
  | cons tr rest ih =>
    obtain ⟨l, camp, wt⟩ := tr
    intro w cid h
    rw [charge_loop] at h
    by_cases hch : charged_or_not_needed w.charged camp = true
    · rw [if_pos hch] at h
      obtain ⟨c, hc, h1, h2, h3⟩ := ih w cid h
      exact ⟨c, List.mem_cons_of_mem _ hc, h1, h2, h3⟩
    · have hch' : charged_or_not_needed w.charged camp = false := by
        rwa [Bool.not_eq_true] at hch
      rw [charged_or_not_needed] at hch'
      have hic : is_charged_transaction w.charged camp.transId camp.id = false := by
        cases hic : is_charged_transaction w.charged camp.transId camp.id
        · rfl
        · rw [hic] at hch'; simp at hch'
      have hcpm : camp.priorityCpm = true := by
        cases hcpm : camp.priorityCpm
        · rw [hcpm] at hch'; simp at hch'
        · rfl
      have hnotmem : (camp.transId, camp.id) ∉ w.charged := by
        rw [is_charged_transaction] at hic
        simpa using hic
      rw [if_neg hch] at h
      by_cases ho : env.chargeOutcome camp.id = true
      · simp only [charge_transaction, ho, ite_true] at h
        rcases List.mem_cons.mp h with heq | h2
        · have hcid : camp.id = cid := by
            injection heq with h0
            exact h0.symm
          exact ⟨camp, List.mem_cons_self _ _, hcid, hcpm, hnotmem⟩
        · rcases List.mem_cons.mp h2 with habs | h3
          · exact absurd habs (by simp)
          · obtain ⟨c, hc, h1, h2', h3'⟩ := ih _ cid h3
            refine ⟨c, List.mem_cons_of_mem _ hc, h1, h2', ?_⟩
            intro hmem
            apply h3'
            rw [advance_link_charged]
            exact List.mem_cons_of_mem _ hmem
      · have hof : env.chargeOutcome camp.id = false := by
          rwa [Bool.not_eq_true] at ho
        simp only [charge_transaction, hof, Bool.false_eq_true, ite_false] at h
        rcases List.mem_cons.mp h with heq | h2
        · have hcid : camp.id = cid := by
            injection heq with h0
            exact h0.symm
          exact ⟨camp, List.mem_cons_self _ _, hcid, hcpm, hnotmem⟩
        · obtain ⟨c, hc, h1, h2', h3'⟩ := ih w cid h2
          exact ⟨c, List.mem_cons_of_mem _ hc, h1, h2', h3'⟩

/-- C6: running charge_pending twice charges each campaign at most once —
assuming the gateway reports a transaction charged after a successful
charge_transaction call (built into the gateway model), a campaign charged
by the first run satisfies charged_or_not_needed afterwards and receives no
charge request in the second run, and a flat-priced (non-cpm) campaign is
never charged in either run. -/
theorem charge_pending_idempotent (env : Env) (w : World) (offset : ℤ)
    (cid : ℕ) (cflat : Campaign)
    (hids : (w.campaigns.map (fun c => c.id)).Nodup)
    (hsucc : Event.chargeSuccess cid ∈ (charge_pending env w offset).2)
    (hflatmem : cflat ∈ w.campaigns) (hflat : cflat.priorityCpm = false) :
    (∃ c ∈ w.campaigns, c.id = cid ∧
        charged_or_not_needed ((charge_pending env w offset).1).charged c = true) ∧
    Event.chargeAttempt cid ∉
      (charge_pending env ((charge_pending env w offset).1) offset).2 ∧
    Event.chargeAttempt cflat.id ∉ (charge_pending env w offset).2 ∧
    Event.chargeAttempt cflat.id ∉
      (charge_pending env ((charge_pending env w offset).1) offset).2 := by
  have hcamps1 : ((charge_pending env w offset).1).campaigns = w.campaigns :=
    charge_loop_campaigns env _ w
  obtain ⟨camp, hcampL, hcampid, hcampch⟩ :=
    charge_loop_success_charged env _ w cid hsucc
  have hcampmem : camp ∈ w.campaigns := by
    rw [List.mem_map] at hcampL
    obtain ⟨⟨l0, c0, wt0⟩, ht0, hteq⟩ := hcampL
    rw [← hteq]
    exact accepted_campaigns_camp_mem ht0
  refine ⟨⟨camp, hcampmem, hcampid, ?_⟩, ?_, ?_, ?_⟩
  · rw [charged_or_not_needed, is_charged_transaction]
    simp
    exact Or.inl hcampch
  · intro hatt
    obtain ⟨camp', hcamp'L, hcamp'id, _hcpm, hnot⟩ :=
      charge_loop_attempt_uncharged env _ _ cid hatt
    have hcamp'mem : camp' ∈ w.campaigns := by
      rw [List.mem_map] at hcamp'L
      obtain ⟨⟨l0, c0, wt0⟩, ht0, hteq⟩ := hcamp'L
      rw [← hteq, ← hcamps1]
      exact accepted_campaigns_camp_mem ht0
    have : camp' = camp := List.inj_on_of_nodup_map hids hcamp'mem hcampmem
      (by rw [hcamp'id, hcampid])
    subst this
    rw [hcampid] at hcampch
    rw [hcamp'id] at hnot
    exact hnot hcampch
  · intro hatt
    obtain ⟨camp', hcamp'L, hcamp'id, hcpm, _hnot⟩ :=
      charge_loop_attempt_uncharged env _ _ cflat.id hatt
    have hcamp'mem : camp' ∈ w.campaigns := by
      rw [List.mem_map] at hcamp'L
      obtain ⟨⟨l0, c0, wt0⟩, ht0, hteq⟩ := hcamp'L
      rw [← hteq]
      exact accepted_campaigns_camp_mem ht0
    have : camp' = cflat := List.inj_on_of_nodup_map hids hcamp'mem hflatmem hcamp'id
    subst this
    rw [hcpm] at hflat
    exact Bool.true_eq_false.mp hflat
  · intro hatt
    obtain ⟨camp', hcamp'L, hcamp'id, hcpm, _hnot⟩ :=
      charge_loop_attempt_uncharged env _ _ cflat.id hatt
    have hcamp'mem : camp' ∈ w.campaigns := by
      rw [List.mem_map] at hcamp'L
      obtain ⟨⟨l0, c0, wt0⟩, ht0, hteq⟩ := hcamp'L
      rw [← hteq, ← hcamps1]
      exact accepted_campaigns_camp_mem ht0
    have : camp' = cflat := List.inj_on_of_nodup_map hids hcamp'mem hflatmem hcamp'id
    subst this
    rw [hcpm] at hflat
    exact Bool.true_eq_false.mp hflat

/-- Concrete environment for the charge_pending witness: two scheduled
campaigns, a cpm one that charges successfully and a flat one. -/
def env6 : Env :=
  { now := 0
    promoWeights := [⟨"lA", 1, "", 1, 0⟩, ⟨"lB", 2, "", 1, 0⟩]
    chargeOutcome := fun _ => true
    refundOutcome := fun _ => Except.ok true
    trafficHistory := fun _ _ _ => []
    missingTraffic := fun _ _ => []
    fault := fun _ => none
    subredditByName := fun _ => none
    srOver18 := fun _ => false }

def campA : Campaign := ⟨1, 1, 1, "cA", "", 100, some 500, true, 5, none, 0, 3⟩

def campB : Campaign := ⟨2, 2, 1, "cB", "", 50, none, false, 0, none, 0, 3⟩

def world6 : World :=
  { links := [⟨1, "lA", 1, false, true, PROMOTE_STATUS.accepted, false⟩,
              ⟨2, "lB", 1, false, true, PROMOTE_STATUS.accepted, false⟩]
    campaigns := [campA, campB]
    charged := []
    underdelivered := []
    liveAds := fun _ => none
    healthMarked := false }

/-- Witness for charge_pending_idempotent at a concrete world. -/
theorem charge_pending_idempotent_witness :
    (∃ c ∈ world6.campaigns, c.id = 1 ∧
        charged_or_not_needed ((charge_pending env6 world6 0).1).charged c = true) ∧
    Event.chargeAttempt 1 ∉
      (charge_pending env6 ((charge_pending env6 world6 0).1) 0).2 ∧
    Event.chargeAttempt campB.id ∉ (charge_pending env6 world6 0).2 ∧
    Event.chargeAttempt campB.id ∉
      (charge_pending env6 ((charge_pending env6 world6 0).1) 0).2 :=
  charge_pending_idempotent env6 world6 0 1 campB
    (by decide) (by decide) (by decide) (by decide)

/-- Insert an id into a set-like id list (no duplicates). -/
def insertId (u : List ℕ) (i : ℕ) : List ℕ := if i ∈ u then u else u ++ [i]

/-- Modelled from the spec: queries.set_underdelivered_campaigns — mark the
campaigns underdelivered for later audit (set semantics: already-marked
campaigns stay marked once). -/
def set_underdelivered_campaigns (w : World) (camps : List Campaign) : World :=
  { w with underdelivered :=
      camps.foldl (fun u c => insertId u c.id) w.underdelivered }

/-- Modelled from the spec: queries.unset_underdelivered_campaigns — remove
the campaign from the underdelivered set. -/
def unset_underdelivered_campaigns (w : World) (campId : ℕ) : World :=
  { w with underdelivered := w.underdelivered.filter (fun i => decide (i ≠ campId)) }

/-- Commit a changed campaign record to the campaign store (camp._commit). -/
def updateCampaign (w : World) (campId : ℕ) (f : Campaign → Campaign) : World :=
  { w with campaigns := w.campaigns.map (fun c => if c.id = campId then f c else c) }

/-- get_total_run (promote.py:942-976) for a PromoCampaign: its start and
end dates when charged_or_not_needed, otherwise the last-month fallback
window ending now. -/
def get_total_run (env : Env) (charged : List (ℤ × ℕ)) (camp : Campaign) : ℤ × ℤ :=
  if charged_or_not_needed charged camp then (camp.startDate, camp.endDate)
  else (env.now - 30, env.now)

/-- get_traffic_dates (promote.py:979-984): clip the end to now. -/
def get_traffic_dates (env : Env) (charged : List (ℤ × ℕ)) (camp : Campaign) : ℤ × ℤ :=
  let r := get_total_run env charged camp
  (r.1, min env.now r.2)

/-- get_billable_impressions (promote.py:987-996): zero before the run
starts, otherwise the sum of the delivered-impression history from the
Traffic collaborator. -/
def get_billable_impressions (env : Env) (charged : List (ℤ × ℕ))
    (camp : Campaign) : ℕ :=
  let r := get_traffic_dates env charged camp
  if env.now < r.1 then 0 else (env.trafficHistory camp.fullname r.1 r.2).sum

/-- The billable-covers-bid test of the finalize loop (promote.py:857). -/
def fullyDelivered (env : Env) (charged : List (ℤ × ℕ)) (c : Campaign) : Bool :=
  decide (c.bid ≤ get_billable_amount c (get_billable_impressions env charged c))

/-- The campaigns eligible for finalization `daysago` days after their end
date: end date on that day and a real (positive) transaction id
(promote.py:828-832). -/
def eligible_campaigns (env : Env) (w : World) (daysago : ℤ) : List Campaign :=
  w.campaigns.filter (fun c => decide (c.endDate = env.now - daysago ∧ 0 < c.transId))

/-- min(campaigns, key=start_date): the first campaign with the minimal
start date (promote.py:838). -/
def minByStart : List Campaign → Option Campaign
  | [] => none
  | c :: cs => some (cs.foldl (fun best x =>
      if x.startDate < best.startDate then x else best) c)

inductive FinalizeError
  | coverageGap (date : ℤ) (missing : List ℤ)
deriving DecidableEq

/-- The per-campaign loop of finalize_completed_campaigns
(promote.py:849-871): skip campaigns whose refund amount is already set;
set refund amount 0 for fully delivered campaigns; append the others to the
underdelivered list, which is pushed to the underdelivered store at the end
of each iteration.  No payment-gateway call happens anywhere in this
loop. -/
def finalizeLoop (env : Env) :
    World → List Campaign → List Campaign → World × List Campaign
  | w, ud, [] => (w, ud)
  | w, ud, camp :: rest =>
    if camp.refundAmount.isSome then finalizeLoop env w ud rest
    else
      if camp.bid ≤ get_billable_amount camp (get_billable_impressions env w.charged camp) then
        let w1 := updateCampaign w camp.id (fun c => { c with refundAmount := some 0 })
        finalizeLoop env (if ud = [] then w1 else set_underdelivered_campaigns w1 ud) ud rest
      else
        finalizeLoop env (set_underdelivered_campaigns w (ud ++ [camp])) (ud ++ [camp]) rest

/-- finalize_completed_campaigns (promote.py:822-871): query the campaigns
whose end date was `daysago` days ago and that have a real transaction;
abort the whole batch with an error if the Traffic collaborator reports
missing coverage between the earliest start and the finalize day; otherwise
run the finalize loop.  This function makes no refund request; it only sets
refund amount 0 for fully delivered campaigns and marks the rest
underdelivered. -/
def finalize_completed_campaigns (env : Env) (w : World) (daysago : ℤ) :
    World × Except FinalizeError Unit :=
  match minByStart (eligible_campaigns env w daysago) with
  | none => (w, Except.ok ())
  | some earliest =>
    if env.missingTraffic ((get_total_run env w.charged earliest).1) (env.now - daysago) ≠ [] then
      (w, Except.error (FinalizeError.coverageGap (env.now - daysago)
        (env.missingTraffic ((get_total_run env w.charged earliest).1) (env.now - daysago))))
    else
      ((finalizeLoop env w [] (eligible_campaigns env w daysago)).1, Except.ok ())

/-- refund_campaign (promote.py:883-906): compute the refund amount; if not
positive do nothing; otherwise request the refund from the Payment Gateway;
on a gateway exception log and return with the state unchanged; otherwise
record the refund amount on the campaign and clear its underdelivered mark
(the returned success flag is not inspected, as in the source).  The events
record the gateway interaction. -/
def refund_campaign (env : Env) (w : World) (camp : Campaign) (billable : ℚ) :
    World × List Event :=
  let refund_amount := get_refund_amount camp billable
  if refund_amount ≤ 0 then (w, [])
  else
    match env.refundOutcome camp.id with
    | Except.error _ =>
      (w, [Event.refundRequest camp.id refund_amount, Event.refundFailed camp.id])
    | Except.ok _success =>
      (unset_underdelivered_campaigns
        (updateCampaign w camp.id (fun c => { c with refundAmount := some refund_amount }))
        camp.id,
       [Event.refundRequest camp.id refund_amount])

/-- C2: if any campaign is eligible for finalization and the Traffic
collaborator reports missing coverage over the run window ending on the
finalize day, finalize_completed_campaigns raises the coverage error and
leaves the whole state untouched — no campaign's refund amount is set and
no campaign is marked underdelivered. -/
theorem finalize_aborts_on_coverage_gap (env : Env) (w : World) (d : ℤ)
    (e : Campaign) (hmin : minByStart (eligible_campaigns env w d) = some e)
    (hmiss : env.missingTraffic ((get_total_run env w.charged e).1) (env.now - d) ≠ []) :
    finalize_completed_campaigns env w d =
      (w, Except.error (FinalizeError.coverageGap (env.now - d)
        (env.missingTraffic ((get_total_run env w.charged e).1) (env.now - d)))) := by
  unfold finalize_completed_campaigns
  rw [hmin]
  dsimp only
  rw [if_pos hmiss]

/-- Concrete environment for the coverage-gap witness: one eligible
campaign, and the traffic store reports a gap. -/
def env2 : Env :=
  { now := 10
    promoWeights := []
    chargeOutcome := fun _ => false
    refundOutcome := fun _ => Except.ok true
    trafficHistory := fun _ _ _ => []
    missingTraffic := fun _ _ => [7]
    fault := fun _ => none
    subredditByName := fun _ => none
    srOver18 := fun _ => false }

def campC : Campaign := ⟨1, 1, 1, "cC", "", 100, some 500, true, 3, none, 5, 9⟩

def world2 : World :=
  { links := []
    campaigns := [campC]
    charged := [(3, 1)]
    underdelivered := []
    liveAds := fun _ => none
    healthMarked := false }

/-- Witness for finalize_aborts_on_coverage_gap at a concrete world. -/
theorem finalize_aborts_on_coverage_gap_witness :
    finalize_completed_campaigns env2 world2 1 =
      (world2, Except.error (FinalizeError.coverageGap (env2.now - 1)
        (env2.missingTraffic ((get_total_run env2 world2.charged campC).1)
          (env2.now - 1)))) :=
  finalize_aborts_on_coverage_gap env2 world2 1 campC (by decide) (by decide)

theorem insertId_self (u : List ℕ) (i : ℕ) : i ∈ insertId u i := by
  unfold insertId
  split
  · assumption
  · simp

theorem insertId_mono {u : List ℕ} {i j : ℕ} (h : j ∈ u) : j ∈ insertId u i := by
  unfold insertId
  split
  · exact h
  · exact List.mem_append_left _ h

theorem foldl_insertId_of_mem :
    ∀ (camps : List Campaign) (u : List ℕ), (∀ c ∈ camps, c.id ∈ u) →
      camps.foldl (fun v c => insertId v c.id) u = u := by
  intro camps
  induction camps with
  | nil => intro u _; rfl
  | cons c cs ih =>
    intro u h
    rw [List.foldl_cons]
    have hc : insertId u c.id = u := by
      unfold insertId
      rw [if_pos (h c (List.mem_cons_self _ _))]
    rw [hc]
    exact ih u (fun x hx => h x (List.mem_cons_of_mem _ hx))

theorem mem_foldl_insertId_of_mem :
    ∀ (camps : List Campaign) (u : List ℕ) (j : ℕ), j ∈ u →
      j ∈ camps.foldl (fun v c => insertId v c.id) u := by
  intro camps
  induction camps with
  | nil => intro u j h; exact h
  | cons c cs ih =>
    intro u j h
    rw [List.foldl_cons]
    exact ih _ j (insertId_mono h)

theorem mem_foldl_insertId :
    ∀ (camps : List Campaign) (u : List ℕ) (c : Campaign), c ∈ camps →
      c.id ∈ camps.foldl (fun v x => insertId v x.id) u := by
  intro camps
  induction camps with
  | nil => intro u c h; simp at h
  | cons x xs ih =>
    intro u c h
    rw [List.foldl_cons]
    rcases List.mem_cons.mp h with h | h
    · subst h
      exact mem_foldl_insertId_of_mem xs _ _ (insertId_self _ _)
    · exact ih _ c h

/-- The mark a single finalize pass over `list` leaves on a stored
campaign: refund amount 0 when some listed campaign with the same id was
unfinalized and fully delivered. -/
def finalizeMark (env : Env) (charged : List (ℤ × ℕ)) (list : List Campaign)
    (c : Campaign) : Campaign :=
  if list.any (fun x => decide (x.id = c.id) && x.refundAmount.isNone
      && fullyDelivered env charged x)
  then { c with refundAmount := some 0 } else c

/-- The campaigns a single finalize pass over `list` marks underdelivered. -/
def underdeliveredOf (env : Env) (charged : List (ℤ × ℕ))
    (list : List Campaign) : List Campaign :=
  list.filter (fun x => x.refundAmount.isNone && !(fullyDelivered env charged x))

theorem finalizeMark_cons_false {env : Env} {charged : List (ℤ × ℕ)}
    {camp : Campaign} {rest : List Campaign} {c : Campaign}
    (h : (decide (camp.id = c.id) && camp.refundAmount.isNone
      && fullyDelivered env charged camp) = false) :
    finalizeMark env charged (camp :: rest) c = finalizeMark env charged rest c := by
  unfold finalizeMark
  rw [List.any_cons, h, Bool.false_or]

theorem branch_world_charged (w1 : World) (ud : List Campaign) :
    (if ud = ([] : List Campaign) then w1
     else set_underdelivered_campaigns w1 ud).charged = w1.charged := by
  split
  · rfl
  · rfl

theorem branch_world_links (w1 : World) (ud : List Campaign) :
    (if ud = ([] : List Campaign) then w1
     else set_underdelivered_campaigns w1 ud).links = w1.links := by
  split
  · rfl
  · rfl

theorem branch_world_liveAds (w1 : World) (ud : List Campaign) :
    (if ud = ([] : List Campaign) then w1
     else set_underdelivered_campaigns w1 ud).liveAds = w1.liveAds := by
  split
  · rfl
  · rfl

theorem branch_world_healthMarked (w1 : World) (ud : List Campaign) :
    (if ud = ([] : List Campaign) then w1
     else set_underdelivered_campaigns w1 ud).healthMarked = w1.healthMarked := by
  split
  · rfl
  · rfl

theorem branch_world_campaigns (w1 : World) (ud : List Campaign) :
    (if ud = ([] : List Campaign) then w1
     else set_underdelivered_campaigns w1 ud).campaigns = w1.campaigns := by
  split
  · rfl
  · rfl

theorem branch_world_underdelivered (w1 : World) (ud : List Campaign)
    (hinv : ∀ c ∈ ud, c.id ∈ w1.underdelivered) :
    (if ud = ([] : List Campaign) then w1
     else set_underdelivered_campaigns w1 ud).underdelivered = w1.underdelivered := by
  split
  · rfl
  · exact foldl_insertId_of_mem ud w1.underdelivered hinv

theorem finalizeLoop_fields (env : Env) :
    ∀ (list : List Campaign) (w : World) (ud : List Campaign),
      ((finalizeLoop env w ud list).1).charged = w.charged ∧
      ((finalizeLoop env w ud list).1).links = w.links ∧
      ((finalizeLoop env w ud list).1).liveAds = w.liveAds ∧
      ((finalizeLoop env w ud list).1).healthMarked = w.healthMarked := by
  intro list
  induction list with
  | nil => intro w ud; exact ⟨rfl, rfl, rfl, rfl⟩
  | cons camp rest ih =>
    intro w ud
    rw [finalizeLoop]
    by_cases hskip : camp.refundAmount.isSome = true
    · rw [if_pos hskip]; exact ih w ud
    · rw [if_neg hskip]
      by_cases hfull : camp.bid ≤ get_billable_amount camp
          (get_billable_impressions env w.charged camp)
      · rw [if_pos hfull]
        dsimp only
        refine ⟨?_, ?_, ?_, ?_⟩
        · rw [(ih _ ud).1, branch_world_charged]; rfl
        · rw [(ih _ ud).2.1, branch_world_links]; rfl
        · rw [(ih _ ud).2.2.1, branch_world_liveAds]; rfl
        · rw [(ih _ ud).2.2.2, branch_world_healthMarked]; rfl
      · rw [if_neg hfull]
        exact ih _ _

theorem updateCampaign_charged (w : World) (cid : ℕ) (f : Campaign → Campaign) :
    (updateCampaign w cid f).charged = w.charged := rfl

theorem updateCampaign_campaigns (w : World) (cid : ℕ) (f : Campaign → Campaign) :
    (updateCampaign w cid f).campaigns
      = w.campaigns.map (fun c => if c.id = cid then f c else c) := rfl

theorem map_update_mark (env : Env) (ch : List (ℤ × ℕ)) (camp : Campaign)
    (rest : List Campaign) (hnone : camp.refundAmount.isNone = true)
    (hfull : fullyDelivered env ch camp = true) (cs : List Campaign) :
    (cs.map (fun c => if c.id = camp.id then { c with refundAmount := some 0 } else c)).map
        (finalizeMark env ch rest)
      = cs.map (finalizeMark env ch (camp :: rest)) := by
  rw [List.map_map]
  apply List.map_congr_left
  intro c _
  simp only [Function.comp]
  by_cases hid : c.id = camp.id
  · rw [if_pos hid]
    have hhead : (decide (camp.id = c.id) && camp.refundAmount.isNone
        && fullyDelivered env ch camp) = true := by
      rw [hnone, hfull]
      simp [hid]
    unfold finalizeMark
    rw [List.any_cons, hhead, Bool.true_or, if_pos rfl]
    split
    · rfl
    · rfl
  · rw [if_neg hid]
    have hhead : (decide (camp.id = c.id) && camp.refundAmount.isNone
        && fullyDelivered env ch camp) = false := by
      have hdec : decide (camp.id = c.id) = false :=
        decide_eq_false (fun h => hid h.symm)
      rw [hdec]
      simp
    rw [finalizeMark_cons_false hhead]

theorem finalizeLoop_campaigns (env : Env) :
    ∀ (list : List Campaign) (w : World) (ud : List Campaign),
      ((finalizeLoop env w ud list).1).campaigns
        = w.campaigns.map (finalizeMark env w.charged list) := by
  intro list
  induction list with
  | nil =>
    intro w ud
    have hpt : ∀ c ∈ w.campaigns, finalizeMark env w.charged [] c = c := by
      intro c _
      unfold finalizeMark
      simp
    have h2 : w.campaigns.map (finalizeMark env w.charged []) = w.campaigns := by
      rw [List.map_congr_left hpt]
      exact List.map_id _
    rw [finalizeLoop, h2]
  | cons camp rest ih =>
    intro w ud
    rw [finalizeLoop]
    by_cases hskip : camp.refundAmount.isSome = true
    · rw [if_pos hskip, ih]
      have hnone_f : camp.refundAmount.isNone = false := by
        cases h : camp.refundAmount with
        | none => rw [h] at hskip; simp at hskip
        | some v => rfl
      apply List.map_congr_left
      intro c _
      symm
      apply finalizeMark_cons_false
      rw [hnone_f]
      simp
    · rw [if_neg hskip]
      have hnone : camp.refundAmount.isNone = true := by
        cases h : camp.refundAmount with
        | none => rfl
        | some v => rw [h] at hskip; simp at hskip
      by_cases hfull : camp.bid ≤ get_billable_amount camp
          (get_billable_impressions env w.charged camp)
      · rw [if_pos hfull]
        dsimp only
        rw [ih, branch_world_campaigns, branch_world_charged,
          updateCampaign_charged, updateCampaign_campaigns]
        have hfb : fullyDelivered env w.charged camp = true := by
          unfold fullyDelivered
          exact decide_eq_true hfull
        exact map_update_mark env w.charged camp rest hnone hfb w.campaigns
      · rw [if_neg hfull]
        rw [ih]
        have h1 : (set_underdelivered_campaigns w (ud ++ [camp])).campaigns
            = w.campaigns := rfl
        have h2 : (set_underdelivered_campaigns w (ud ++ [camp])).charged
            = w.charged := rfl
        rw [h1, h2]
        apply List.map_congr_left
        intro c _
        symm
        apply finalizeMark_cons_false
        have hfb : fullyDelivered env w.charged camp = false := by
          unfold fullyDelivered
          exact decide_eq_false hfull
        rw [hfb]
        simp

theorem finalizeLoop_underdelivered (env : Env) :
    ∀ (list : List Campaign) (w : World) (ud : List Campaign),
      (∀ c ∈ ud, c.id ∈ w.underdelivered) →
      ((finalizeLoop env w ud list).1).underdelivered
        = (underdeliveredOf env w.charged list).foldl
            (fun u x => insertId u x.id) w.underdelivered := by
  intro list
  induction list with
  | nil =>
    intro w ud _
    rw [finalizeLoop]
    rfl
  | cons camp rest ih =>
    intro w ud hinv
    rw [finalizeLoop]
    by_cases hskip : camp.refundAmount.isSome = true
    · rw [if_pos hskip, ih w ud hinv]
      have hnone_f : camp.refundAmount.isNone = false := by
        cases h : camp.refundAmount with
        | none => rw [h] at hskip; simp at hskip
        | some v => rfl
      have hfil : underdeliveredOf env w.charged (camp :: rest)
          = underdeliveredOf env w.charged rest := by
        unfold underdeliveredOf
        rw [List.filter_cons, hnone_f]
        simp
      rw [hfil]
    · rw [if_neg hskip]
      have hnone : camp.refundAmount.isNone = true := by
        cases h : camp.refundAmount with
        | none => rfl
        | some v => rw [h] at hskip; simp at hskip
      by_cases hfull : camp.bid ≤ get_billable_amount camp
          (get_billable_impressions env w.charged camp)
      · rw [if_pos hfull]
        dsimp only
        have hbw : (if ud = ([] : List Campaign)
              then updateCampaign w camp.id (fun c => { c with refundAmount := some 0 })
              else set_underdelivered_campaigns
                (updateCampaign w camp.id (fun c => { c with refundAmount := some 0 }))
                ud).underdelivered
            = w.underdelivered := branch_world_underdelivered _ ud hinv
        have hinv' : ∀ c ∈ ud, c.id ∈ (if ud = ([] : List Campaign)
              then updateCampaign w camp.id (fun c => { c with refundAmount := some 0 })
              else set_underdelivered_campaigns
                (updateCampaign w camp.id (fun c => { c with refundAmount := some 0 }))
                ud).underdelivered := by
          intro c hc
          rw [hbw]
          exact hinv c hc
        rw [ih _ ud hinv', hbw, branch_world_charged, updateCampaign_charged]
        have hfb : fullyDelivered env w.charged camp = true := by
          unfold fullyDelivered
          exact decide_eq_true hfull
        have hfil : underdeliveredOf env w.charged (camp :: rest)
            = underdeliveredOf env w.charged rest := by
          unfold underdeliveredOf
          rw [List.filter_cons, hfb, hnone]
          simp
        rw [hfil]
      · rw [if_neg hfull]
        have hW : (set_underdelivered_campaigns w (ud ++ [camp])).underdelivered
            = insertId w.underdelivered camp.id := by
          show (ud ++ [camp]).foldl (fun u c => insertId u c.id) w.underdelivered
            = insertId w.underdelivered camp.id
          rw [List.foldl_append, foldl_insertId_of_mem ud w.underdelivered hinv]
          rfl
        have hinv' : ∀ c ∈ ud ++ [camp],
            c.id ∈ (set_underdelivered_campaigns w (ud ++ [camp])).underdelivered := by
          intro c hc
          rw [hW]
          rcases List.mem_append.mp hc with h | h
          · exact insertId_mono (hinv c h)
          · have hc' : c = camp := List.mem_singleton.mp h
            rw [hc']
            exact insertId_self _ _
        rw [ih _ _ hinv', hW]
        have hch : (set_underdelivered_campaigns w (ud ++ [camp])).charged
            = w.charged := rfl
        rw [hch]
        have hfb : fullyDelivered env w.charged camp = false := by
          unfold fullyDelivered
          exact decide_eq_false hfull
        have hfil : underdeliveredOf env w.charged (camp :: rest)
            = camp :: underdeliveredOf env w.charged rest := by
          unfold underdeliveredOf
          rw [List.filter_cons, hfb, hnone]
          simp
        rw [hfil, List.foldl_cons]

theorem finalizeMark_startDate (env : Env) (ch : List (ℤ × ℕ))
    (list : List Campaign) (c : Campaign) :
    (finalizeMark env ch list c).startDate = c.startDate := by
  unfold finalizeMark
  split
  · rfl
  · rfl

theorem finalizeMark_endDate (env : Env) (ch : List (ℤ × ℕ))
    (list : List Campaign) (c : Campaign) :
    (finalizeMark env ch list c).endDate = c.endDate := by
  unfold finalizeMark
  split
  · rfl
  · rfl

theorem finalizeMark_transId (env : Env) (ch : List (ℤ × ℕ))
    (list : List Campaign) (c : Campaign) :
    (finalizeMark env ch list c).transId = c.transId := by
  unfold finalizeMark
  split
  · rfl
  · rfl

theorem finalizeMark_campid (env : Env) (ch : List (ℤ × ℕ))
    (list : List Campaign) (c : Campaign) :
    (finalizeMark env ch list c).id = c.id := by
  unfold finalizeMark
  split
  · rfl
  · rfl

theorem get_total_run_mark (env : Env) (ch ch2 : List (ℤ × ℕ))
    (list : List Campaign) (c : Campaign) :
    get_total_run env ch (finalizeMark env ch2 list c) = get_total_run env ch c := by
  unfold finalizeMark
  split
  · rfl
  · rfl

theorem fullyDelivered_mark (env : Env) (ch ch2 : List (ℤ × ℕ))
    (list : List Campaign) (c : Campaign) :
    fullyDelivered env ch (finalizeMark env ch2 list c) = fullyDelivered env ch c := by
  unfold finalizeMark
  split
  · rfl
  · rfl

theorem minByStart_map (f : Campaign → Campaign)
    (hf : ∀ c, (f c).startDate = c.startDate) :
    ∀ l : List Campaign, minByStart (l.map f) = (minByStart l).map f := by
  intro l
  cases l with
  | nil => rfl
  | cons c cs =>
    simp only [List.map_cons, minByStart, Option.map_some']
    congr 1
    induction cs generalizing c with
    | nil => rfl
    | cons x xs ih =>
      simp only [List.map_cons, List.foldl_cons]
      rw [hf x, hf c]
      by_cases hlt : x.startDate < c.startDate
      · rw [if_pos hlt, if_pos hlt]
        exact ih x
      · rw [if_neg hlt, if_neg hlt]
        exact ih c

/-- C5 (amended): a second run of finalize_completed_campaigns leaves the
state unchanged.  Campaigns finalized as fully delivered got refund amount
0 and are skipped; underdelivered campaigns — whose refund amount finalize
does not set — are recomputed and re-marked in the underdelivered set,
which changes nothing. -/
theorem finalize_completed_campaigns_idempotent (env : Env) (w : World) (d : ℤ)
    (hids : (w.campaigns.map (fun c => c.id)).Nodup) :
    (finalize_completed_campaigns env
        ((finalize_completed_campaigns env w d).1) d).1
      = (finalize_completed_campaigns env w d).1 := by
  cases hmin : minByStart (eligible_campaigns env w d) with
  | none =>
    have hw1 : (finalize_completed_campaigns env w d).1 = w := by
      unfold finalize_completed_campaigns
      rw [hmin]
    rw [hw1]
    exact hw1
  | some e =>
    by_cases hmiss : env.missingTraffic ((get_total_run env w.charged e).1)
        (env.now - d) ≠ []
    · have hw1 : (finalize_completed_campaigns env w d).1 = w := by
        unfold finalize_completed_campaigns
        rw [hmin]
        dsimp only
        rw [if_pos hmiss]
      rw [hw1]
      exact hw1
    · have hw1 : (finalize_completed_campaigns env w d).1
          = (finalizeLoop env w [] (eligible_campaigns env w d)).1 := by
        unfold finalize_completed_campaigns
        rw [hmin]
        dsimp only
        rw [if_neg hmiss]
      have hch1 : ((finalize_completed_campaigns env w d).1).charged = w.charged := by
        rw [hw1]
        exact (finalizeLoop_fields env _ w []).1
      have hcamps1 : ((finalize_completed_campaigns env w d).1).campaigns
          = w.campaigns.map (finalizeMark env w.charged (eligible_campaigns env w d)) := by
        rw [hw1]
        exact finalizeLoop_campaigns env _ w []
      have hund1 : ((finalize_completed_campaigns env w d).1).underdelivered
          = (underdeliveredOf env w.charged (eligible_campaigns env w d)).foldl
              (fun u x => insertId u x.id) w.underdelivered := by
        rw [hw1]
        exact finalizeLoop_underdelivered env _ w [] (by intro c hc; simp at hc)
      generalize hW1 : (finalize_completed_campaigns env w d).1 = w1 at hch1 hcamps1 hund1 ⊢
      have hCuniq : ∀ x ∈ eligible_campaigns env w d,
          ∀ y ∈ eligible_campaigns env w d, x.id = y.id → x = y := by
        intro x hx y hy hxy
        exact List.inj_on_of_nodup_map hids (List.mem_of_mem_filter hx)
          (List.mem_of_mem_filter hy) hxy
      have hany : ∀ y ∈ eligible_campaigns env w d,
          ((eligible_campaigns env w d).any (fun x => decide (x.id = y.id)
            && x.refundAmount.isNone && fullyDelivered env w.charged x))
          = (y.refundAmount.isNone && fullyDelivered env w.charged y) := by
        intro y hy
        rcases Bool.eq_false_or_eq_true
            (y.refundAmount.isNone && fullyDelivered env w.charged y) with hyb | hyb
        · rw [hyb, List.any_eq_true]
          refine ⟨y, hy, ?_⟩
          simp [hyb]
        · rw [hyb, List.any_eq_false]
          intro x hx hpx
          simp only [Bool.and_eq_true, decide_eq_true_eq] at hpx
          have hxy : x = y := hCuniq x hx y hy hpx.1.1
          subst hxy
          rw [hpx.1.2, hpx.2] at hyb
          exact Bool.true_eq_false.mp hyb
      have hmark : ∀ y ∈ eligible_campaigns env w d,
          finalizeMark env w.charged (eligible_campaigns env w d) y
            = (if (y.refundAmount.isNone && fullyDelivered env w.charged y) = true
               then { y with refundAmount := some 0 } else y) := by
        intro y hy
        unfold finalizeMark
        rw [hany y hy]
      have hC2 : eligible_campaigns env w1 d
          = (eligible_campaigns env w d).map
              (finalizeMark env w.charged (eligible_campaigns env w d)) := by
        unfold eligible_campaigns
        rw [hcamps1, List.filter_map]
        congr 1
        apply List.filter_congr
        intro c _
        simp only [Function.comp, finalizeMark_endDate, finalizeMark_transId]
      have hmin2 : minByStart (eligible_campaigns env w1 d)
          = some (finalizeMark env w.charged (eligible_campaigns env w d) e) := by
        rw [hC2, minByStart_map _ (fun c => finalizeMark_startDate env w.charged _ c),
          hmin]
        rfl
      have hmiss2 : ¬ env.missingTraffic
          ((get_total_run env w1.charged
            (finalizeMark env w.charged (eligible_campaigns env w d) e)).1)
          (env.now - d) ≠ [] := by
        rw [hch1, get_total_run_mark]
        exact hmiss
      have hw2 : (finalize_completed_campaigns env w1 d).1
          = (finalizeLoop env w1 [] (eligible_campaigns env w1 d)).1 := by
        unfold finalize_completed_campaigns
        rw [hmin2]
        dsimp only
        rw [if_neg hmiss2]
      have hmark2 : ∀ c ∈ w1.campaigns,
          finalizeMark env w1.charged (eligible_campaigns env w1 d) c = c := by
        intro c _
        unfold finalizeMark
        have hfalse : (eligible_campaigns env w1 d).any
            (fun x => decide (x.id = c.id) && x.refundAmount.isNone
              && fullyDelivered env w1.charged x) = false := by
          rw [hC2, List.any_map, List.any_eq_false]
          intro y hy hpy
          simp only [Function.comp, Bool.and_eq_true, decide_eq_true_eq] at hpy
          have hfd : fullyDelivered env w1.charged
              (finalizeMark env w.charged (eligible_campaigns env w d) y)
              = fullyDelivered env w.charged y := by
            rw [fullyDelivered_mark, hch1]
          rcases Bool.eq_false_or_eq_true
              (y.refundAmount.isNone && fullyDelivered env w.charged y) with hc1 | hc1
          · have hmy := hmark y hy
            rw [hc1] at hmy
            simp at hmy
            rw [hmy] at hpy
            simp at hpy
          · have hmy := hmark y hy
            rw [hc1] at hmy
            simp at hmy
            rw [hmy] at hpy
            rw [hch1] at hpy
            simp [hpy.1.2, hpy.2] at hc1
        rw [hfalse]
        simp
      have hcamps2 : ((finalizeLoop env w1 [] (eligible_campaigns env w1 d)).1).campaigns
          = w1.campaigns := by
        rw [finalizeLoop_campaigns env _ w1 []]
        rw [List.map_congr_left hmark2]
        exact List.map_id _
      have hudOf : underdeliveredOf env w.charged (eligible_campaigns env w1 d)
          = (underdeliveredOf env w.charged (eligible_campaigns env w d)).map
              (finalizeMark env w.charged (eligible_campaigns env w d)) := by
        rw [hC2]
        unfold underdeliveredOf
        rw [List.filter_map]
        congr 1
        apply List.filter_congr
        intro y hy
        simp only [Function.comp]
        rw [fullyDelivered_mark]
        rcases Bool.eq_false_or_eq_true
            (y.refundAmount.isNone && fullyDelivered env w.charged y) with hc1 | hc1
        · have hmy := hmark y hy
          rw [hc1] at hmy
          simp at hmy
          rw [hmy]
          simp only [Bool.and_eq_true] at hc1
          rw [hc1.2]
          simp
        · have hmy := hmark y hy
          rw [hc1] at hmy
          simp at hmy
          rw [hmy]
      have hund2 : ((finalizeLoop env w1 [] (eligible_campaigns env w1 d)).1).underdelivered
          = w1.underdelivered := by
        rw [finalizeLoop_underdelivered env _ w1 [] (by intro c hc; simp at hc)]
        rw [hch1, hudOf]
        have hfoldmap : ∀ (l : List Campaign) (u : List ℕ),
            (l.map (finalizeMark env w.charged (eligible_campaigns env w d))).foldl
              (fun v x => insertId v x.id) u
            = l.foldl (fun v x => insertId v x.id) u := by
          intro l
          induction l with
          | nil => intro u; rfl
          | cons x xs ih =>
            intro u
            simp only [List.map_cons, List.foldl_cons, finalizeMark_campid]
            exact ih _
        rw [hfoldmap]
        apply foldl_insertId_of_mem
        intro c hc
        rw [hund1]
        exact mem_foldl_insertId _ _ _ hc
      have hfl2 := finalizeLoop_fields env (eligible_campaigns env w1 d) w1 []
      rw [hw2]
      apply World.ext
      · exact hfl2.2.1
      · exact hcamps2
      · exact hfl2.1
      · exact hund2
      · exact hfl2.2.2.1
      · exact hfl2.2.2.2

/-- Concrete environment for the finalize counterexamples: one eligible
cpm campaign that underdelivered (1000 impressions at 500 cents/mille
against a $100 bid), full traffic coverage, a gateway whose refunds would
succeed. -/
def env5 : Env :=
  { now := 10
    promoWeights := []
    chargeOutcome := fun _ => false
    refundOutcome := fun _ => Except.ok true
    trafficHistory := fun _ _ _ => [1000]
    missingTraffic := fun _ _ => []
    fault := fun _ => none
    subredditByName := fun _ => none
    srOver18 := fun _ => false }

def campD : Campaign := ⟨1, 1, 1, "cD", "", 100, some 500, true, 3, none, 5, 9⟩

def world5 : World :=
  { links := []
    campaigns := [campD]
    charged := [(3, 1)]
    underdelivered := []
    liveAds := fun _ => none
    healthMarked := false }

theorem campD_billable : get_billable_amount campD
    (get_billable_impressions env5 world5.charged campD) = 5 := by
  have himps : get_billable_impressions env5 world5.charged campD = 1000 := by
    norm_num [get_billable_impressions, get_traffic_dates, get_total_run,
      charged_or_not_needed, is_charged_transaction, env5, world5, campD]
  rw [himps]
  show floorCent (min campD.bid ((1000 : ℚ) / 1000 * 500 / 100)) = 5
  have h1 : min campD.bid ((1000 : ℚ) / 1000 * 500 / 100) = ((500 : ℤ) : ℚ) / 100 := by
    norm_num [campD]
  rw [h1, floorCent_of_centAligned ⟨500, rfl⟩]
  norm_num

theorem finalize_env5_world5_eval :
    finalize_completed_campaigns env5 world5 1
      = (set_underdelivered_campaigns world5 [campD], Except.ok ()) := by
  have hmin5 : minByStart (eligible_campaigns env5 world5 1) = some campD := by decide
  have hnofull : ¬ (campD.bid ≤ get_billable_amount campD
      (get_billable_impressions env5 world5.charged campD)) := by
    rw [campD_billable]
    norm_num [campD]
  have helig : eligible_campaigns env5 world5 1 = [campD] := by decide
  unfold finalize_completed_campaigns
  rw [hmin5]
  dsimp only
  rw [if_neg (by decide : ¬ env5.missingTraffic
      ((get_total_run env5 world5.charged campD).1) (env5.now - 1) ≠ [])]
  rw [helig]
  rw [finalizeLoop]
  rw [if_neg (by decide : ¬ campD.refundAmount.isSome = true)]
  rw [if_neg hnofull]
  rw [finalizeLoop]
  simp

/-- C5 counterexample: the first finalize pass completes (ok) over an
underdelivered campaign, yet its refund amount is still not set afterwards
— refuting "once the first finalize pass has completed for the campaign,
its refund amount is set and a subsequent run skips it". -/
theorem finalize_refund_not_set_counterexample :
    (finalize_completed_campaigns env5 world5 1).2 = Except.ok () ∧
    ((finalize_completed_campaigns env5 world5 1).1).campaigns = [campD] ∧
    campD.refundAmount = none := by
  rw [finalize_env5_world5_eval]
  exact ⟨rfl, rfl, rfl⟩

/-- Witness for finalize_completed_campaigns_idempotent at a concrete
underdelivered campaign. -/
theorem finalize_completed_campaigns_idempotent_witness :
    (finalize_completed_campaigns env5
        ((finalize_completed_campaigns env5 world5 1).1) 1).1
      = (finalize_completed_campaigns env5 world5 1).1 :=
  finalize_completed_campaigns_idempotent env5 world5 1 (by decide)

theorem finalizeLoop_refund_oracle_irrel (env : Env) (f : ℕ → Except Unit Bool) :
    ∀ (list : List Campaign) (w : World) (ud : List Campaign),
      finalizeLoop { env with refundOutcome := f } w ud list
        = finalizeLoop env w ud list := by
  intro list
  induction list with
  | nil => intro w ud; rfl
  | cons camp rest ih =>
    intro w ud
    rw [finalizeLoop, finalizeLoop]
    by_cases hskip : camp.refundAmount.isSome = true
    · rw [if_pos hskip, if_pos hskip]
      exact ih w ud
    · rw [if_neg hskip, if_neg hskip]
      by_cases hfull : camp.bid ≤ get_billable_amount camp
          (get_billable_impressions env w.charged camp)
      · have hfull2 : camp.bid ≤ get_billable_amount camp
            (get_billable_impressions { env with refundOutcome := f }
              w.charged camp) := hfull
        rw [if_pos hfull2, if_pos hfull]
        dsimp only
        exact ih _ ud
      · have hfull2 : ¬ camp.bid ≤ get_billable_amount camp
            (get_billable_impressions { env with refundOutcome := f }
              w.charged camp) := hfull
        rw [if_neg hfull2, if_neg hfull]
        exact ih _ _

theorem finalize_refund_oracle_irrel (env : Env) (f : ℕ → Except Unit Bool)
    (w : World) (d : ℤ) :
    finalize_completed_campaigns { env with refundOutcome := f } w d
      = finalize_completed_campaigns env w d := by
  have helig : eligible_campaigns { env with refundOutcome := f } w d
      = eligible_campaigns env w d := rfl
  unfold finalize_completed_campaigns
  rw [helig]
  cases hmin : minByStart (eligible_campaigns env w d) with
  | none => rfl
  | some e =>
    dsimp only
    rw [finalizeLoop_refund_oracle_irrel]
    have hrun : get_total_run { env with refundOutcome := f } w.charged e
        = get_total_run env w.charged e := rfl
    rw [hrun]

/-- C1 counterexample: with a gateway whose refund requests always succeed,
finalize_completed_campaigns still marks the underdelivered campaign — so
the marking is not conditioned on a failed refund request — and records no
refund on it: the pass requested no refund at all. -/
theorem finalize_requests_no_refund_counterexample :
    env5.refundOutcome 1 = Except.ok true ∧
    (finalize_completed_campaigns env5 world5 1).2 = Except.ok () ∧
    1 ∈ ((finalize_completed_campaigns env5 world5 1).1).underdelivered ∧
    (∀ c ∈ ((finalize_completed_campaigns env5 world5 1).1).campaigns,
        c.refundAmount = none) := by
  rw [finalize_env5_world5_eval]
  refine ⟨rfl, rfl, by decide, ?_⟩
  intro c hc
  have hcd : c = campD := by
    simpa [set_underdelivered_campaigns, world5] using hc
  rw [hcd]
  rfl

/-- C1 (amended): for an eligible campaign whose billable amount is below
its bid, finalize_completed_campaigns marks it underdelivered and neither
computes nor requests a refund — its result does not depend on the
gateway's refund behaviour and the campaign's refund amount stays unset.
The refund of max(0, roundup(bid − existing_refund − billable)) is
requested by the separate refund_campaign operation; when that gateway
request raises, refund_campaign leaves the state unchanged, so the campaign
stays marked underdelivered. -/
theorem finalize_marks_underdelivered_refund_separate
    (env : Env) (w w2 : World) (d : ℤ) (camp : Campaign) (billable : ℚ)
    (f : ℕ → Except Unit Bool) (gerr : Unit)
    (hids : (w.campaigns.map (fun c => c.id)).Nodup)
    (hmem : camp ∈ w.campaigns)
    (hend : camp.endDate = env.now - d) (htrans : 0 < camp.transId)
    (hnone : camp.refundAmount = none)
    (hunder : fullyDelivered env w.charged camp = false)
    (hok : (finalize_completed_campaigns env w d).2 = Except.ok ())
    (hrefpos : 0 < get_refund_amount camp billable)
    (hrefout : env.refundOutcome camp.id = Except.error gerr) :
    finalize_completed_campaigns { env with refundOutcome := f } w d
        = finalize_completed_campaigns env w d ∧
    camp.id ∈ ((finalize_completed_campaigns env w d).1).underdelivered ∧
    (∀ c ∈ ((finalize_completed_campaigns env w d).1).campaigns,
        c.id = camp.id → c.refundAmount = none) ∧
    refund_campaign env w2 camp billable
        = (w2, [Event.refundRequest camp.id (get_refund_amount camp billable),
                Event.refundFailed camp.id]) := by
  have hcampC : camp ∈ eligible_campaigns env w d := by
    rw [eligible_campaigns, List.mem_filter]
    exact ⟨hmem, by simp [hend, htrans]⟩
  cases hmin : minByStart (eligible_campaigns env w d) with
  | none =>
    exfalso
    cases hC : eligible_campaigns env w d with
    | nil => rw [hC] at hcampC; simp at hcampC
    | cons a as => rw [hC] at hmin; simp [minByStart] at hmin
  | some e =>
    by_cases hmiss : env.missingTraffic ((get_total_run env w.charged e).1)
        (env.now - d) ≠ []
    · exfalso
      have h2 : finalize_completed_campaigns env w d
          = (w, Except.error (FinalizeError.coverageGap (env.now - d)
              (env.missingTraffic ((get_total_run env w.charged e).1)
                (env.now - d)))) := by
        unfold finalize_completed_campaigns
        rw [hmin]
        dsimp only
        rw [if_pos hmiss]
      rw [h2] at hok
      simp at hok
    · have hw1 : (finalize_completed_campaigns env w d).1
          = (finalizeLoop env w [] (eligible_campaigns env w d)).1 := by
        unfold finalize_completed_campaigns
        rw [hmin]
        dsimp only
        rw [if_neg hmiss]
      refine ⟨finalize_refund_oracle_irrel env f w d, ?_, ?_, ?_⟩
      · rw [hw1, finalizeLoop_underdelivered env _ w [] (by intro c hc; simp at hc)]
        apply mem_foldl_insertId
        rw [underdeliveredOf, List.mem_filter]
        refine ⟨hcampC, ?_⟩
        rw [hnone, hunder]
        rfl
      · intro c hc hcid
        rw [hw1, finalizeLoop_campaigns env _ w []] at hc
        rw [List.mem_map] at hc
        obtain ⟨c0, hc0, hc0eq⟩ := hc
        have hc0id : c0.id = camp.id := by
          rw [← finalizeMark_campid env w.charged (eligible_campaigns env w d) c0,
            hc0eq]
          exact hcid
        have hc0camp : c0 = camp := List.inj_on_of_nodup_map hids hc0 hmem hc0id
        subst hc0camp
        rw [← hc0eq]
        unfold finalizeMark
        have hfalse : (eligible_campaigns env w d).any
            (fun x => decide (x.id = c0.id) && x.refundAmount.isNone
              && fullyDelivered env w.charged x) = false := by
          rw [List.any_eq_false]
          intro x hx hpx
          simp only [Bool.and_eq_true, decide_eq_true_eq] at hpx
          have hxc : x = c0 :=
            List.inj_on_of_nodup_map hids (List.mem_of_mem_filter hx) hmem hpx.1.1
          subst hxc
          rw [hunder] at hpx
          exact Bool.false_ne_true hpx.2
        rw [hfalse]
        simp [hnone]
      · unfold refund_campaign
        rw [if_neg (not_le.mpr hrefpos), hrefout]

/-- env5 with a refund gateway that raises on every request. -/
def env1e : Env := { env5 with refundOutcome := fun _ => Except.error () }

theorem campD_underdelivered : fullyDelivered env5 world5.charged campD = false := by
  unfold fullyDelivered
  apply decide_eq_false
  intro h
  rw [campD_billable] at h
  norm_num [campD] at h

theorem campD_refund_pos : 0 < get_refund_amount campD 5 := by
  unfold get_refund_amount
  dsimp only
  have hx : (0 : ℚ) < campD.bid - campD.refundAmount.getD 0 - 5 := by
    norm_num [campD]
  calc (0 : ℚ) < campD.bid - campD.refundAmount.getD 0 - 5 := hx
    _ ≤ ceilCent (campD.bid - campD.refundAmount.getD 0 - 5) := le_ceilCent _
    _ ≤ max (ceilCent (campD.bid - campD.refundAmount.getD 0 - 5)) 0 := le_max_left _ _

theorem env1e_finalize_eq : finalize_completed_campaigns env1e world5 1
    = finalize_completed_campaigns env5 world5 1 :=
  finalize_refund_oracle_irrel env5 (fun _ => Except.error ()) world5 1

/-- Witness for finalize_marks_underdelivered_refund_separate: the concrete
underdelivered campaign against a gateway whose refund call raises. -/
theorem finalize_marks_underdelivered_refund_separate_witness :
    finalize_completed_campaigns
        { env1e with refundOutcome := fun _ => Except.ok true } world5 1
      = finalize_completed_campaigns env1e world5 1 ∧
    campD.id ∈ ((finalize_completed_campaigns env1e world5 1).1).underdelivered ∧
    (∀ c ∈ ((finalize_completed_campaigns env1e world5 1).1).campaigns,
        c.id = campD.id → c.refundAmount = none) ∧
    refund_campaign env1e world5 campD 5
        = (world5, [Event.refundRequest campD.id (get_refund_amount campD 5),
                    Event.refundFailed campD.id]) :=
  finalize_marks_underdelivered_refund_separate env1e world5 world5 1 campD 5
    (fun _ => Except.ok true) ()
    (by decide) (by decide) (by decide) (by decide) (by decide)
    campD_underdelivered
    (by rw [env1e_finalize_eq, finalize_env5_world5_eval])
    campD_refund_pos rfl

inductive DailyError
  | coverage (e : FinalizeError)
  | schedulingErrors (errs : List (ℕ × String))
deriving DecidableEq

/-- Set the adult flag on a link (link.over_18 = True; link._commit()). -/
def setLinkOver18 (w : World) (l : Link) : World :=
  { w with links := w.links.map (fun x =>
      if x.id = l.id then { x with over18 := true } else x) }

/-- The scheduling section of make_daily_promotions (promote.py:751-804):
mark expired promoted links finished, then for each scheduled ad weight
propagate the subreddit's adult flag, promote newly live accepted links and
group the weight under its audience key.  Records whose link, campaign or
subreddit cannot be resolved are skipped (the source would raise a KeyError
there); emails are not modelled. -/
def daily_schedule_step (env : Env) (w : World) (offset : ℤ) :
    World × List (AudKey × List AdWeight) :=
  let scheduled := (get_scheduled env w offset).1
  let current := (w.liveAds AudKey.allAds).getD []
  let expired := ((current.map (fun aw => aw.link)).filter
    (fun nm => !((scheduled.map (fun aw => aw.link)).contains nm))).dedup
  let w1 := expired.foldl (fun acc nm =>
    match acc.links.find? (fun l => l.fullname = nm) with
    | some l => if is_promoted l
                then set_promote_status acc l PROMOTE_STATUS.finished
                else acc
    | none => acc) w
  let step := fun (acc : World × List (AudKey × AdWeight)) (aw : AdWeight) =>
    match acc.1.links.find? (fun l => l.fullname = aw.link),
          acc.1.campaigns.find? (fun c => c.fullname = aw.campaign) with
    | some link, some campaign =>
      match (if campaign.srName = "" then some AudKey.empty
             else (env.subredditByName campaign.srName).map AudKey.sr) with
      | none => acc
      | some key =>
        let wa := match key with
          | AudKey.sr sid =>
            if env.srOver18 sid then setLinkOver18 acc.1 link else acc.1
          | _ => acc.1
        let wb := if is_accepted link && !(is_promoted link)
                  then set_promote_status wa link PROMOTE_STATUS.promoted
                  else wa
        (wb, acc.2 ++ [(key, aw)])
    | _, _ => acc
  let res := scheduled.foldl step (w1, [])
  (res.1, ((res.2.map (fun p => p.1)).dedup).map (fun k =>
    (k, (res.2.filter (fun p => p.1 = k)).map (fun p => p.2))))

/-- The world right after the publish step of make_daily_promotions:
set_live_promotions on the schedule step's grouping, then
_mark_promos_updated (the health flag). -/
def daily_published_world (env : Env) (w : World) (offset : ℤ) : World :=
  { set_live_promotions env (daily_schedule_step env w offset).1
      (daily_schedule_step env w offset).2 with healthMarked := true }

/-- make_daily_promotions (promote.py:743-819): compute the schedule and
its error list, update link statuses, publish the live set, mark the
promotions-health flag, run finalize_completed_campaigns for the prior day,
and only then raise an exception carrying the collected (campaign id,
error) pairs if there were any. -/
def make_daily_promotions (env : Env) (w : World) (offset : ℤ) :
    World × Except DailyError Unit :=
  let errs := (get_scheduled env w offset).2
  match finalize_completed_campaigns env (daily_published_world env w offset)
      (offset + 1) with
  | (w4, Except.error e) => (w4, Except.error (DailyError.coverage e))
  | (w4, Except.ok _) =>
    (w4, if errs = [] then Except.ok ()
         else Except.error (DailyError.schedulingErrors errs))

theorem finalize_healthMarked (env : Env) (w : World) (d : ℤ) :
    ((finalize_completed_campaigns env w d).1).healthMarked = w.healthMarked := by
  unfold finalize_completed_campaigns
  cases hmin : minByStart (eligible_campaigns env w d) with
  | none => rfl
  | some e =>
    dsimp only
    split
    · rfl
    · exact (finalizeLoop_fields env _ w []).2.2.2

theorem finalize_liveAds (env : Env) (w : World) (d : ℤ) :
    ((finalize_completed_campaigns env w d).1).liveAds = w.liveAds := by
  unfold finalize_completed_campaigns
  cases hmin : minByStart (eligible_campaigns env w d) with
  | none => rfl
  | some e =>
    dsimp only
    split
    · rfl
    · exact (finalizeLoop_fields env _ w []).2.2.1

/-- C7: when the finalize step raises no coverage error,
make_daily_promotions processes everything first — its final state is the
published-and-health-marked world passed through finalization, so the live
set is published and the health flag set — and only afterwards reports the
collected per-campaign scheduling errors as an exception carrying the
(campaign id, error) list; with no collected errors it returns normally. -/
theorem make_daily_promotions_spec (env : Env) (w : World) (offset : ℤ)
    (hfin : (finalize_completed_campaigns env (daily_published_world env w offset)
        (offset + 1)).2 = Except.ok ()) :
    (make_daily_promotions env w offset).1
        = (finalize_completed_campaigns env (daily_published_world env w offset)
            (offset + 1)).1 ∧
    ((make_daily_promotions env w offset).1).healthMarked = true ∧
    ((make_daily_promotions env w offset).1).liveAds
        = (set_live_promotions env (daily_schedule_step env w offset).1
            (daily_schedule_step env w offset).2).liveAds ∧
    (make_daily_promotions env w offset).2
        = (if (get_scheduled env w offset).2 = [] then Except.ok ()
           else Except.error (DailyError.schedulingErrors
             (get_scheduled env w offset).2)) := by
  have h1 : make_daily_promotions env w offset
      = ((finalize_completed_campaigns env (daily_published_world env w offset)
            (offset + 1)).1,
         if (get_scheduled env w offset).2 = [] then Except.ok ()
         else Except.error (DailyError.schedulingErrors
           (get_scheduled env w offset).2)) := by
    unfold make_daily_promotions
    rcases hf : finalize_completed_campaigns env (daily_published_world env w offset)
        (offset + 1) with ⟨w4, r⟩
    cases r with
    | error e =>
      rw [hf] at hfin
      simp at hfin
    | ok u =>
      rfl
  refine ⟨by rw [h1], ?_, ?_, by rw [h1]⟩
  · rw [h1]
    show ((finalize_completed_campaigns env (daily_published_world env w offset)
        (offset + 1)).1).healthMarked = true
    rw [finalize_healthMarked]
    rfl
  · rw [h1]
    show ((finalize_completed_campaigns env (daily_published_world env w offset)
        (offset + 1)).1).liveAds = _
    rw [finalize_liveAds]
    rfl

/-- Concrete environment for the make_daily_promotions witness: one
scheduled campaign whose record resolution faults (so an error is
collected), and no campaign eligible for finalization. -/
def env7 : Env :=
  { now := 10
    promoWeights := [⟨"lA", 1, "", 1, 10⟩]
    chargeOutcome := fun _ => false
    refundOutcome := fun _ => Except.ok true
    trafficHistory := fun _ _ _ => []
    missingTraffic := fun _ _ => []
    fault := fun i => if i = 1 then some "corrupt campaign" else none
    subredditByName := fun _ => none
    srOver18 := fun _ => false }

def campE : Campaign := ⟨1, 1, 1, "cE", "", 100, some 500, true, 5, none, 1, 99⟩

def world7 : World :=
  { links := [⟨1, "lA", 1, false, true, PROMOTE_STATUS.accepted, false⟩]
    campaigns := [campE]
    charged := []
    underdelivered := []
    liveAds := fun _ => none
    healthMarked := false }

/-- Witness for make_daily_promotions_spec at a concrete world with one
collected scheduling error. -/
theorem make_daily_promotions_spec_witness :
    (make_daily_promotions env7 world7 0).1
        = (finalize_completed_campaigns env7 (daily_published_world env7 world7 0)
            (0 + 1)).1 ∧
    ((make_daily_promotions env7 world7 0).1).healthMarked = true ∧
    ((make_daily_promotions env7 world7 0).1).liveAds
        = (set_live_promotions env7 (daily_schedule_step env7 world7 0).1
            (daily_schedule_step env7 world7 0).2).liveAds ∧
    (make_daily_promotions env7 world7 0).2
        = (if (get_scheduled env7 world7 0).2 = [] then Except.ok ()
           else Except.error (DailyError.schedulingErrors
             (get_scheduled env7 world7 0).2)) :=
  make_daily_promotions_spec env7 world7 0 rfl
